import Mathlib

/-!
The function `goOSXBind` of gomobile (cmd/gomobile/bind_osxapp.go).

A shallow embedding of the OS X static-framework packaging step of `gomobile bind`.

`goOSXBind` is a straight-line orchestration of calls into the rest of gomobile
(`loadExportData`, the binder's generators, `goBuild`, `removeAll`, `mkdir`, `symlink`,
`copyFile`, `writeFile`, `runCmd`) and into the Go library.  None of these is defined in
`bind_osxapp.go`.  The embedding therefore

* records every such call, with its arguments, in a trace (`Effect`), in program order;
* takes what each call returns from a `World`, which may answer differently depending on
  everything that has happened so far;
* renders the three text templates of the file as pure functions.

Go strings are modelled by `String`, Go slices by `List`, a Go `error` by `Option String`
(`none` is `nil`, `some m` is an error whose message is `m`).
-/

namespace Gomobile

/-- A loaded `*types.Package`; `goOSXBind` only reads its name. -/
structure TypesPackage where
  name : String
  path : String
deriving DecidableEq, Repr

/-- A `*build.Package`; only `ImportPath` is read (by `osxBindHeaderTmpl`). -/
structure BuildPackage where
  importPath : String
deriving DecidableEq, Repr

/-- One call that leaves `bind_osxapp.go`, with the arguments it is given.
`pkg = none` in `genGo` and `genObjc` is the `nil` package (the error type). -/
inductive Effect where
  | loadExportData (pkgs : List BuildPackage) (env : List String)
  | newBinder (typesPkgs : List TypesPackage)
  | genGo (pkg : Option TypesPackage) (allPkg : List TypesPackage) (outdir : String)
  | genObjc (pkg : Option TypesPackage) (allPkg : List TypesPackage) (outdir : String)
  | genObjcSupport (outdir : String)
  | genGoSupport (outdir : String)
  | writeFile (filename : String) (content : String)
  | goBuild (src : String) (env : List String) (args : List String)
  | removeAll (path : String)
  | mkdir (dir : String)
  | symlink (src : String) (dst : String)
  | runCmd (args : List String)
  | copyFile (dst : String) (src : String)
  | ioutilWriteFile (filename : String) (data : String) (perm : Nat)
deriving DecidableEq, Repr

/-- How a Go function body ends: it runs to its end with a value, `goOSXBind` executes a
`return` with a non-nil error, or the Go runtime panics. -/
inductive Outcome (α : Type) where
  | ok (a : α)
  | fail (err : String)
  | panic (msg : String)
deriving DecidableEq, Repr

/-- Everything `bind_osxapp.go` uses and does not define.

The first group are package-level variables of gomobile and pure functions (of gomobile and
of the Go library); they are total here, so a panic inside one of them (`archClang` on an
architecture it does not know) is not part of the embedding.  The second group are the
answers of the calls of `Effect`: each takes the trace of all calls made before it, so a call
may succeed once and fail later.  The error of a `writeFile` call stands for any failure of
it, the execution of the template that fills the file included. -/
structure World where
  /-- Variable `tmpdir`. -/
  tmpdir : String
  /-- Variable `bindPrefix`. -/
  bindPrefix : String
  /-- Variable `darwinOsxEnv`. -/
  darwinOsxEnv : List String
  /-- Go `strings.Title`. -/
  title : String → String
  /-- The verb `%q` of Go `fmt` on a string. -/
  quote : String → String
  /-- Go `filepath.Join`. -/
  join : List String → String
  /-- Function `getenv(env, key)` of gomobile. -/
  getenv : List String → String → String
  /-- Function `archClang(goarch)` of gomobile. -/
  archClang : String → String
  /-- The `error` a call returns, given the calls made before it. -/
  errorOf : List Effect → Effect → Option String
  /-- The packages `loadExportData` returns. -/
  typesPkgs : List Effect → List BuildPackage → List String → List TypesPackage
  /-- The field `pkgs` of the binder `newBinder` returns. -/
  binderPkgs : List Effect → List TypesPackage → List TypesPackage
  /-- The header base name `binder.GenObjc` returns. -/
  objcBase : List Effect → Option TypesPackage → List TypesPackage → String → String

/-- A computation that reads the trace of the calls made so far and extends it. -/
structure M (α : Type) where
  run : List Effect → Outcome α × List Effect

/-- Sequencing: the second computation runs only when the first one ran to its end. -/
def M.bind {α β : Type} (m : M α) (f : α → M β) : M β :=
  ⟨fun tr =>
    match m.run tr with
    | (.ok a, tr1) => (f a).run tr1
    | (.fail e, tr1) => (.fail e, tr1)
    | (.panic s, tr1) => (.panic s, tr1)⟩

instance : Monad M where
  pure a := ⟨fun tr => (.ok a, tr)⟩
  bind := M.bind

/-- Statement `return err` of `goOSXBind`, with `err` non-nil. -/
def ret {α : Type} (err : String) : M α := ⟨fun tr => (.fail err, tr)⟩

/-- A run-time panic (index out of range). -/
def goPanic {α : Type} (msg : String) : M α := ⟨fun tr => (.panic msg, tr)⟩

/-- Make the call `e`: it is appended to the trace whatever it answers, and its `error` is
handed back to the caller. -/
def call (w : World) (e : Effect) : M (Option String) :=
  ⟨fun tr => (.ok (w.errorOf tr e), tr ++ [e])⟩

/-- The Go statement `if err != nil { return msg(err) }`. -/
def returnIf (err : Option String) (msg : String → String) : M Unit :=
  match err with
  | some e => ret (msg e)
  | none => pure ()

/-- The Go idiom `if err := f(); err != nil { return err }`. -/
def check (w : World) (e : Effect) : M Unit := do
  let err ← call w e
  returnIf err id

/-- Go `strings.HasSuffix`. -/
def hasSuffix (s suffix : String) : Bool := suffix.data.isSuffixOf s.data

/-- Constant `osxBindInfoPlist` (lines 167-173). -/
def osxBindInfoPlist : String :=
  "<?xml version=\"1.0\" encoding=\"UTF-8\"?>\n" ++
  "    <!DOCTYPE plist PUBLIC \"-//Apple//DTD PLIST 1.0//EN\" \"http://www.apple.com/DTDs/PropertyList-1.0.dtd\">\n" ++
  "    <plist version=\"1.0\">\n" ++
  "      <dict>\n" ++
  "      </dict>\n" ++
  "    </plist>\n"

/-- Variable `osxBindFile` (lines 192-202). -/
def osxBindFile : String :=
  "\npackage main\n\nimport (\n  _ \"../gomobile_bind\"\n)\n\nimport \"C\"\n\nfunc main() \x7b\x7d\n"

/-- Template `osxModuleMapTmpl` (lines 175-179) executed on `Module` and `Headers`. -/
def osxModuleMapTmpl (module : String) (headers : List String) : String :=
  "framework module \"" ++ module ++ "\" \x7b\n" ++
  String.join (headers.map fun h => "    header \"" ++ h ++ "\"\n") ++
  "\n    export *\n\x7d"

/-- Template `osxBindHeaderTmpl` (lines 204-216) executed on `pkgs`, `title` and `bases`. -/
def osxBindHeaderTmpl (pkgs : List BuildPackage) (title : String) (bases : List String) : String :=
  "\n// Objective-C API for talking to the following Go packages\n//\n" ++
  String.join (pkgs.map fun p => "// " ++ p.importPath ++ "\n") ++
  "//\n// File is generated by gomobile bind. Do not edit.\n#ifndef __" ++ title ++ "_H__\n" ++
  "#define __" ++ title ++ "_H__\n\n" ++
  String.join (bases.map fun b => "#include \"" ++ b ++ ".h\"\n") ++
  "\n#endif\n"

/-- Call `loadExportData(pkgs, env)`: the Go pair `([]*types.Package, error)`. -/
def loadExportData (w : World) (pkgs : List BuildPackage) (env : List String) :
    M (List TypesPackage × Option String) :=
  ⟨fun tr => (.ok (w.typesPkgs tr pkgs env, w.errorOf tr (.loadExportData pkgs env)),
    tr ++ [.loadExportData pkgs env])⟩

/-- Call `newBinder(typesPkgs)`: the field `pkgs` of the binder, and the `error`. -/
def newBinder (w : World) (typesPkgs : List TypesPackage) :
    M (List TypesPackage × Option String) :=
  ⟨fun tr => (.ok (w.binderPkgs tr typesPkgs, w.errorOf tr (.newBinder typesPkgs)),
    tr ++ [.newBinder typesPkgs])⟩

/-- Call `binder.GenObjc(pkg, allPkg, outdir)`: the Go pair `(string, error)`. -/
def genObjc (w : World) (pkg : Option TypesPackage) (allPkg : List TypesPackage)
    (outdir : String) : M (String × Option String) :=
  ⟨fun tr => (.ok (w.objcBase tr pkg allPkg outdir, w.errorOf tr (.genObjc pkg allPkg outdir)),
    tr ++ [.genObjc pkg allPkg outdir])⟩

/-- Function `goOSXBindArchive` (lines 181-190).  It returns the Go pair `(string, error)`. -/
def goOSXBindArchive (w : World) (name path : String) (env _fileBases : List String) :
    M (String × Option String) := do
  let arch := w.getenv env "GOARCH"
  let archive := w.join [w.tmpdir, name ++ "-" ++ arch ++ ".a"]
  let err ← call w (.goBuild path env ["-buildmode=c-archive", "-tags=macosx", "-o", archive])
  match err with
  | some e => pure ("", some e)
  | none => pure (archive, none)

/-- Lines 40-44: `for _, pkg := range binder.pkgs`, calling `binder.GenGo`. -/
def genGoLoop (w : World) (allPkg : List TypesPackage) (srcDir : String) :
    List TypesPackage → M Unit
  | [] => pure ()
  | pkg :: rest => do
    check w (.genGo (some pkg) allPkg srcDir)
    genGoLoop w allPkg srcDir rest

/-- Lines 59-63: `for i, pkg := range binder.pkgs`, storing what `binder.GenObjc` returns in
`fileBases[i]`.  The call is made first; the store panics when `i` is out of range; the error
is tested last. -/
def genObjcLoop (w : World) (allPkg : List TypesPackage) (srcDir : String) :
    Nat → List TypesPackage → List String → M (List String)
  | _, [], fileBases => pure fileBases
  | i, pkg :: rest, fileBases => do
    let (base, err) ← genObjc w (some pkg) allPkg srcDir
    if i < fileBases.length then
      let fileBases := fileBases.set i base
      returnIf err id
      genObjcLoop w allPkg srcDir (i + 1) rest fileBases
    else goPanic "index out of range"

/-- Lines 39-72: generation of the Go and Objective-C sources into `srcDir` and of
`mainFile`.  It yields `fileBases`. -/
def goOSXBindGenerate (w : World) (typesPkgs binderPkgs : List TypesPackage)
    (srcDir mainFile : String) : M (List String) := do
  genGoLoop w binderPkgs srcDir binderPkgs
  -- Generate the error type.
  check w (.genGo none binderPkgs srcDir)
  let err ← call w (.writeFile mainFile osxBindFile)
  returnIf err fun e => "failed to create the binding package for OSX: " ++ e
  let fileBases := List.replicate (typesPkgs.length + 1) ""
  let fileBases ← genObjcLoop w binderPkgs srcDir 0 binderPkgs fileBases
  let (base, err) ← genObjc w none binderPkgs srcDir
  let fileBases := fileBases.set (fileBases.length - 1) base
  returnIf err id
  check w (.genObjcSupport srcDir)
  check w (.genGoSupport srcDir)
  pure fileBases

/-- Lines 76-83: the loop over the architecture environments, extending `cmd.Args`. -/
def archiveLoop (w : World) (name mainFile : String) (fileBases : List String) :
    List (List String) → List String → M (List String)
  | [], args => pure args
  | env :: rest, args => do
    let arch := w.archClang (w.getenv env "GOARCH")
    let (path, err) ← goOSXBindArchive w name mainFile env fileBases
    returnIf err fun e => "darwin-" ++ arch ++ ": " ++ e
    archiveLoop w name mainFile fileBases rest (args ++ ["-arch", arch, path])

/-- Lines 120-128: `for i, fileBase := range fileBases`, filling `headerFiles[i]` and copying
the header.  `headerFiles` has the length of `fileBases`, so the store is always in range. -/
def copyLoop (w : World) (headers srcDir : String) :
    Nat → List String → List String → M (List String)
  | _, [], headerFiles => pure headerFiles
  | i, fileBase :: rest, headerFiles => do
    let headerFiles := headerFiles.set i (fileBase ++ ".h")
    check w (.copyFile (headers ++ "/" ++ fileBase ++ ".h") (srcDir ++ "/" ++ fileBase ++ ".h"))
    copyLoop w headers srcDir (i + 1) rest headerFiles

/-- Lines 108-138: the headers are placed in the directory `headers`.  It yields
`headerFiles`. -/
def goOSXBindHeaders (w : World) (pkgs : List BuildPackage) (title srcDir headers : String)
    (fileBases : List String) : M (List String) := do
  let headerFiles := List.replicate fileBases.length ""
  if fileBases.length = 1 then
    let headerFiles := headerFiles.set 0 (title ++ ".h")
    check w (.copyFile (headers ++ "/" ++ title ++ ".h")
      (srcDir ++ "/" ++ w.bindPrefix ++ title ++ ".h"))
    pure headerFiles
  else
    let headerFiles ← copyLoop w headers srcDir 0 fileBases headerFiles
    let headerFiles := headerFiles ++ [title ++ ".h"]
    check w (.writeFile (headers ++ "/" ++ title ++ ".h") (osxBindHeaderTmpl pkgs title fileBases))
    pure headerFiles

/-- Lines 85-165: the framework directory is built at `buildO`.  `args` is `cmd.Args` after
the loop over the architectures. -/
def goOSXBindLayout (w : World) (pkgs : List BuildPackage) (title buildO srcDir : String)
    (args fileBases : List String) : M Unit := do
  -- Build static framework output directory.
  check w (.removeAll buildO)
  let headers := buildO ++ "/Versions/A/Headers"
  check w (.mkdir headers)
  check w (.symlink "A" (buildO ++ "/Versions/Current"))
  check w (.symlink "Versions/Current/Headers" (buildO ++ "/Headers"))
  check w (.symlink ("Versions/Current/" ++ title) (buildO ++ "/" ++ title))
  let args := args ++ ["-o", buildO ++ "/Versions/A/" ++ title]
  check w (.runCmd args)
  -- Copy header file next to output archive.
  let headerFiles ← goOSXBindHeaders w pkgs title srcDir headers fileBases
  let resources := buildO ++ "/Versions/A/Resources"
  check w (.mkdir resources)
  check w (.symlink "Versions/Current/Resources" (buildO ++ "/Resources"))
  check w (.ioutilWriteFile (buildO ++ "/Resources/Info.plist") osxBindInfoPlist 0o666)
  check w (.writeFile (buildO ++ "/Versions/A/Modules/module.modulemap")
    (osxModuleMapTmpl title headerFiles))
  check w (.symlink "Versions/Current/Modules" (buildO ++ "/Modules"))

/-- Function `goOSXBind` (lines 18-165) with the list of the loop of line 76 as a parameter:
the source ranges over the literal `[][]string{darwinOsxEnv}`.  `buildO` is the value of the
package-level variable when the function is entered. -/
def goOSXBindEnvs (w : World) (envs : List (List String)) (pkgs : List BuildPackage)
    (buildO : String) : M Unit := do
  let (typesPkgs, err) ← loadExportData w pkgs w.darwinOsxEnv
  returnIf err id
  let (binderPkgs, err) ← newBinder w typesPkgs
  returnIf err id
  match binderPkgs with
  | [] => goPanic "index out of range"
  | pkg0 :: _ =>
    let name := pkg0.name
    let title := w.title name
    if buildO != "" && !hasSuffix buildO ".framework" then
      ret ("static framework name " ++ w.quote buildO ++ " missing .framework suffix")
    else
      let buildO := if buildO == "" then title ++ ".framework" else buildO
      let srcDir := w.join [w.tmpdir, "src", "gomobile_bind"]
      let mainFile := w.join [w.tmpdir, "src/osxbin/main.go"]
      let fileBases ← goOSXBindGenerate w typesPkgs binderPkgs srcDir mainFile
      let args ← archiveLoop w name mainFile fileBases envs ["xcrun", "lipo", "-create"]
      goOSXBindLayout w pkgs title buildO srcDir args fileBases

/-- Function `goOSXBind` (lines 18-165). -/
def goOSXBind (w : World) (pkgs : List BuildPackage) (buildO : String) : M Unit :=
  goOSXBindEnvs w [w.darwinOsxEnv] pkgs buildO

/-! ## Sample worlds

Stand-ins, on plain ASCII names, for the functions `bind_osxapp.go` calls and does not
define, and worlds built from them, on which the definitions above are evaluated.  The
general theorems do not depend on them: they are stated for every `World`. -/

/-- The separators of Go `strings.Title` among ASCII characters: all but letters, digits and
`_`. -/
def isSeparatorASCII (c : Char) : Bool := !(c.isAlphanum || c == Char.ofNat 95)

/-- Go `strings.Title` on ASCII text: the first letter of every word is upper-cased. -/
def titleCharsASCII : Char → List Char → List Char
  | _, [] => []
  | prev, c :: cs => (if isSeparatorASCII prev then c.toUpper else c) :: titleCharsASCII c cs

/-- Go `strings.Title` on ASCII text. -/
def titleASCII (s : String) : String := ⟨titleCharsASCII (Char.ofNat 32) s.data⟩

/-- The verb `%q` on text without quotes, backslashes or unprintable characters. -/
def quotePlain (s : String) : String := "\"" ++ s ++ "\""

/-- Go `filepath.Join` on clean, non-empty elements. -/
def joinSlash (elems : List String) : String := String.intercalate "/" elems

/-- A `getenv` for the sample worlds: the value of the first `key=value` entry, else `""`. -/
def getenvRef : List String → String → String
  | [], _ => ""
  | kv :: rest, key =>
    if (key ++ "=").data.isPrefixOf kv.data then ⟨kv.data.drop (key ++ "=").data.length⟩
    else getenvRef rest key

/-- An `archClang` for the sample worlds: the Clang names of four architectures. -/
def archClangRef (goarch : String) : String :=
  if goarch = "arm" then "armv7"
  else if goarch = "arm64" then "arm64"
  else if goarch = "386" then "i386"
  else if goarch = "amd64" then "x86_64"
  else goarch

/-- A world in which every call succeeds: `loadExportData` yields one package per argument,
named by its import path, the binder keeps them, and `GenObjc` names a header after the
prefix `Go` and the title of the package (`GoUniverse` for the error type). -/
def okWorld : World where
  tmpdir := "/tmp/gomobile-work"
  bindPrefix := "Go"
  darwinOsxEnv := ["GOOS=darwin", "GOARCH=amd64", "CGO_ENABLED=1"]
  title := titleASCII
  quote := quotePlain
  join := joinSlash
  getenv := getenvRef
  archClang := archClangRef
  errorOf := fun _ _ => none
  typesPkgs := fun _ pkgs _ => pkgs.map fun p => ⟨p.importPath, p.importPath⟩
  binderPkgs := fun _ typesPkgs => typesPkgs
  objcBase := fun _ pkg _ _ =>
    match pkg with
    | some p => "Go" ++ titleASCII p.name
    | none => "GoUniverse"

/-- The world `okWorld` in which `loadExportData` fails. -/
def loadFailsWorld : World :=
  { okWorld with
    errorOf := fun _ e =>
      match e with
      | .loadExportData _ _ => some "cannot load export data"
      | _ => none }

/-- The world `okWorld` in which `removeAll` fails. -/
def removeAllFailsWorld : World :=
  { okWorld with
    errorOf := fun _ e =>
      match e with
      | .removeAll _ => some "permission denied"
      | _ => none }

/-- The world `okWorld` in which the compiler fails. -/
def buildFailsWorld : World :=
  { okWorld with
    errorOf := fun _ e =>
      match e with
      | .goBuild _ _ _ => some "exit status 2"
      | _ => none }

/-- The world `okWorld` in which the merge tool fails. -/
def lipoFailsWorld : World :=
  { okWorld with
    errorOf := fun _ e =>
      match e with
      | .runCmd _ => some "exit status 1"
      | _ => none }

/-- Two architecture environments, for the loop of line 76. -/
def twoArchs : List (List String) :=
  [["GOOS=darwin", "GOARCH=amd64"], ["GOOS=darwin", "GOARCH=386"]]

/-! ## The calls of a run

The values `goOSXBind` computes before it generates anything, and the calls a run is expected
to make, written out as lists.  The theorems below relate them to the trace of `goOSXBind`. -/

/-- Value of `typesPkgs` (line 19) in a run of `goOSXBind` that starts with an empty trace. -/
def loadedPkgs (w : World) (pkgs : List BuildPackage) : List TypesPackage :=
  w.typesPkgs [] pkgs w.darwinOsxEnv

/-- Value of `binder.pkgs` (line 24) in a run that starts with an empty trace. -/
def boundPkgs (w : World) (pkgs : List BuildPackage) : List TypesPackage :=
  w.binderPkgs [.loadExportData pkgs w.darwinOsxEnv] (loadedPkgs w pkgs)

/-- Value of `name` (line 29): the name of the first bound package. -/
def bindName (w : World) (pkgs : List BuildPackage) : String :=
  match boundPkgs w pkgs with
  | [] => ""
  | pkg0 :: _ => pkg0.name

/-- Value of `title` (line 30). -/
def bindTitle (w : World) (pkgs : List BuildPackage) : String := w.title (bindName w pkgs)

/-- Value of `buildO` after line 37: the root of the framework directory. -/
def bundleRoot (w : World) (pkgs : List BuildPackage) (buildO : String) : String :=
  if buildO = "" then bindTitle w pkgs ++ ".framework" else buildO

/-- Value of `srcDir` (line 39). -/
def bindSrcDir (w : World) : String := w.join [w.tmpdir, "src", "gomobile_bind"]

/-- Value of `mainFile` (line 49). -/
def bindMainFile (w : World) : String := w.join [w.tmpdir, "src/osxbin/main.go"]

/-- Value of `archive` (line 183) for the package `name` and the environment `env`. -/
def archiveOf (w : World) (name : String) (env : List String) : String :=
  w.join [w.tmpdir, name ++ "-" ++ w.getenv env "GOARCH" ++ ".a"]

/-- The compiler invocation of line 184 for the environment `env`. -/
def buildCall (w : World) (name mainFile : String) (env : List String) : Effect :=
  .goBuild mainFile env ["-buildmode=c-archive", "-tags=macosx", "-o", archiveOf w name env]

/-- The calls of lines 40-72, in order. -/
def generateCalls (binderPkgs : List TypesPackage) (srcDir mainFile : String) : List Effect :=
  (binderPkgs.map fun p => Effect.genGo (some p) binderPkgs srcDir) ++
  (.genGo none binderPkgs srcDir :: .writeFile mainFile osxBindFile ::
    ((binderPkgs.map fun p => Effect.genObjc (some p) binderPkgs srcDir) ++
      [.genObjc none binderPkgs srcDir, .genObjcSupport srcDir, .genGoSupport srcDir]))

/-- Value of `cmd.Args` when `runCmd` is called (lines 74, 82, 103). -/
def lipoArgs (w : World) (name : String) (envs : List (List String)) (buildO title : String) :
    List String :=
  ["xcrun", "lipo", "-create"] ++
  (envs.flatMap fun env => ["-arch", w.archClang (w.getenv env "GOARCH"), archiveOf w name env]) ++
  ["-o", buildO ++ "/Versions/A/" ++ title]

/-- Value of `headerFiles` after line 138. -/
def headerFilesOf (title : String) (fileBases : List String) : List String :=
  if fileBases.length = 1 then [title ++ ".h"]
  else (fileBases.map fun b => b ++ ".h") ++ [title ++ ".h"]

/-- The calls of lines 108-138, in order. -/
def headerCalls (w : World) (pkgs : List BuildPackage) (title srcDir headers : String)
    (fileBases : List String) : List Effect :=
  if fileBases.length = 1 then
    [.copyFile (headers ++ "/" ++ title ++ ".h") (srcDir ++ "/" ++ w.bindPrefix ++ title ++ ".h")]
  else
    (fileBases.map fun b =>
      Effect.copyFile (headers ++ "/" ++ b ++ ".h") (srcDir ++ "/" ++ b ++ ".h")) ++
    [.writeFile (headers ++ "/" ++ title ++ ".h") (osxBindHeaderTmpl pkgs title fileBases)]

/-- The calls of lines 85-165, in order. -/
def layoutCalls (w : World) (pkgs : List BuildPackage) (title buildO srcDir : String)
    (args fileBases : List String) : List Effect :=
  .removeAll buildO :: .mkdir (buildO ++ "/Versions/A/Headers") ::
  .symlink "A" (buildO ++ "/Versions/Current") ::
  .symlink "Versions/Current/Headers" (buildO ++ "/Headers") ::
  .symlink ("Versions/Current/" ++ title) (buildO ++ "/" ++ title) ::
  .runCmd (args ++ ["-o", buildO ++ "/Versions/A/" ++ title]) ::
  (headerCalls w pkgs title srcDir (buildO ++ "/Versions/A/Headers") fileBases ++
    [.mkdir (buildO ++ "/Versions/A/Resources"),
     .symlink "Versions/Current/Resources" (buildO ++ "/Resources"),
     .ioutilWriteFile (buildO ++ "/Resources/Info.plist") osxBindInfoPlist 0o666,
     .writeFile (buildO ++ "/Versions/A/Modules/module.modulemap")
       (osxModuleMapTmpl title (headerFilesOf title fileBases)),
     .symlink "Versions/Current/Modules" (buildO ++ "/Modules")])

/-- The calls of a whole run of `goOSXBindEnvs` from the empty trace in which `GenObjc`
returned `fileBases`, in order. -/
def fullCalls (w : World) (envs : List (List String)) (pkgs : List BuildPackage)
    (buildO : String) (fileBases : List String) : List Effect :=
  .loadExportData pkgs w.darwinOsxEnv :: .newBinder (loadedPkgs w pkgs) ::
  (generateCalls (boundPkgs w pkgs) (bindSrcDir w) (bindMainFile w) ++
    ((envs.map fun env => buildCall w (bindName w pkgs) (bindMainFile w) env) ++
      layoutCalls w pkgs (bindTitle w pkgs) (bundleRoot w pkgs buildO) (bindSrcDir w)
        (["xcrun", "lipo", "-create"] ++ envs.flatMap fun env =>
          ["-arch", w.archClang (w.getenv env "GOARCH"), archiveOf w (bindName w pkgs) env])
        fileBases))

/-! ## Looking at a trace -/

/-- Whether a call runs the merge tool. -/
def Effect.isRunCmd : Effect → Bool
  | .runCmd _ => true
  | _ => false

/-- Whether a call runs the compiler. -/
def Effect.isGoBuild : Effect → Bool
  | .goBuild _ _ _ => true
  | _ => false

/-- The target and the path of the link a call creates. -/
def Effect.symlinkOf : Effect → Option (String × String)
  | .symlink src dst => some (src, dst)
  | _ => none

/-- The destination and the source of the copy a call makes. -/
def Effect.copyOf : Effect → Option (String × String)
  | .copyFile dst src => some (dst, src)
  | _ => none

/-- The path and the content of the file a call of `writeFile` writes. -/
def Effect.writeOf : Effect → Option (String × String)
  | .writeFile filename content => some (filename, content)
  | _ => none

/-- Whether a call is one of lines 19-84 (loading, generation into `tmpdir`, compiler): the
only file written there is `mainFile`. -/
def beforeLayout (w : World) : Effect → Bool
  | .loadExportData _ _ => true
  | .newBinder _ => true
  | .genGo _ _ _ => true
  | .genObjc _ _ _ => true
  | .genObjcSupport _ => true
  | .genGoSupport _ => true
  | .writeFile filename content => filename == bindMainFile w && content == osxBindFile
  | .goBuild _ _ _ => true
  | _ => false

/-- Whether a call leaves the file system alone or works in the framework directory
`root`: `removeAll` removes `root`, `mkdir` makes the headers or the resources directory of
`root`, `symlink` creates one of the five links of `root`, the merge tool writes to
`root/Versions/A/<title>`, `copyFile` copies into the headers directory of `root`,
`writeFile` writes `mainFile`, the umbrella header or the module map of `root`, and
`ioutil.WriteFile` writes `root/Resources/Info.plist`. -/
def usesRoot (w : World) (root title : String) : Effect → Bool
  | .removeAll path => path == root
  | .mkdir dir => dir == root ++ "/Versions/A/Headers" || dir == root ++ "/Versions/A/Resources"
  | .symlink _ dst =>
    dst == root ++ "/Versions/Current" || dst == root ++ "/Headers" ||
    dst == root ++ "/" ++ title || dst == root ++ "/Resources" || dst == root ++ "/Modules"
  | .runCmd args => args.getLast? == some (root ++ "/Versions/A/" ++ title)
  | .copyFile dst _ => (root ++ "/Versions/A/Headers" ++ "/").data.isPrefixOf dst.data
  | .writeFile filename _ =>
    filename == bindMainFile w || filename == root ++ "/Versions/A/Headers" ++ "/" ++ title ++ ".h" ||
    filename == root ++ "/Versions/A/Modules/module.modulemap"
  | .ioutilWriteFile filename _ _ => filename == root ++ "/Resources/Info.plist"
  | _ => true

/-! ## Reading the rendered text by lines -/

/-- Lines joined by a line feed. -/
def joinLines : List String → String
  | [] => ""
  | [l] => l
  | l :: l2 :: ls => l ++ "\n" ++ joinLines (l2 :: ls)

/-- The lines of a text: the pieces between its line feeds. -/
def splitLines (s : String) : List String :=
  (s.data.splitOn (Char.ofNat 10)).map String.mk

/-- A text without a line feed. -/
def OneLine (s : String) : Prop := Char.ofNat 10 ∉ s.data

instance (s : String) : Decidable (OneLine s) :=
  inferInstanceAs (Decidable (Char.ofNat 10 ∉ s.data))

/-- The lines of the text `osxBindHeaderTmpl` renders (lines 204-216). -/
def osxBindHeaderLines (pkgs : List BuildPackage) (title : String) (bases : List String) :
    List String :=
  ["", "// Objective-C API for talking to the following Go packages", "//"] ++
  (pkgs.map fun p => "// " ++ p.importPath) ++
  ["//", "// File is generated by gomobile bind. Do not edit.",
    "#ifndef __" ++ title ++ "_H__", "#define __" ++ title ++ "_H__", ""] ++
  (bases.map fun b => "#include \"" ++ b ++ ".h\"") ++
  ["", "#endif", ""]

/-- Whether a line is an `#include` directive. -/
def isIncludeLine (l : String) : Bool := "#include".data.isPrefixOf l.data

/-- The lines of the text `osxModuleMapTmpl` renders (lines 175-179). -/
def osxModuleMapLines (module : String) (headers : List String) : List String :=
  ["framework module \"" ++ module ++ "\" \x7b"] ++
  (headers.map fun h => "    header \"" ++ h ++ "\"") ++
  ["", "    export *", "\x7d"]

/-- A line without the blanks it starts with. -/
def stripIndent (l : String) : String := ⟨l.data.dropWhile fun c => c == Char.ofNat 32⟩

/-- The lines that are left when indentation and blank lines are ignored. -/
def significantLines (ls : List String) : List String :=
  (ls.map stripIndent).filter fun l => l != ""

/-- What is known of the run of `m` that starts with the trace `tr`: the calls it adds to the
trace are an initial segment of `calls`; when it runs to its end it has made all of them and
its value satisfies `Q`; and a call that answers with an error is the last call made: `m`
does not run to its end, and when the failed call is a `goBuild` the outcome is the error of
line 80. -/
def SpecAt (w : World) {α : Type} (m : M α) (tr : List Effect) (calls : List Effect)
    (Q : α → Prop) : Prop :=
  ∃ evs, (m.run tr).2 = tr ++ evs ∧ evs <+: calls ∧
    (∀ a, (m.run tr).1 = .ok a → evs = calls ∧ Q a) ∧
    (∀ h ev rest e, evs = h ++ ev :: rest → w.errorOf (tr ++ h) ev = some e →
      rest = [] ∧ (∀ a, (m.run tr).1 ≠ .ok a) ∧
      ∀ src env args, ev = .goBuild src env args →
        (m.run tr).1 = .fail ("darwin-" ++ w.archClang (w.getenv env "GOARCH") ++ ": " ++ e))

/-- The same of every run of `m`, whatever the trace it starts with. -/
def Spec (w : World) {α : Type} (m : M α) (calls : List Effect) (Q : α → Prop) : Prop :=
  ∀ tr, SpecAt w m tr calls Q

/-- A run of `m` that does not reach its end has stopped at a call that failed: the last call
of its trace answered with an error.  It holds of the sections of `goOSXBind` that return
early only after a call (lines 76-165); the sections before them can also stop at the index
of line 29 or 60 and at the test of line 32. -/
def StopsAtCall (w : World) {α : Type} (m : M α) : Prop :=
  ∀ tr, (∃ a, (m.run tr).1 = .ok a) ∨
    ∃ h ev e, (m.run tr).2 = h ++ [ev] ∧ w.errorOf h ev = some e
/-! ## Running a computation -/

@[simp] theorem run_pure {α : Type} (a : α) (tr : List Effect) :
    (pure a : M α).run tr = (.ok a, tr) := rfl

theorem run_bind {α β : Type} (m : M α) (f : α → M β) (tr : List Effect) :
    (m >>= f).run tr =
      match m.run tr with
      | (.ok a, tr1) => (f a).run tr1
      | (.fail e, tr1) => (.fail e, tr1)
      | (.panic s, tr1) => (.panic s, tr1) := rfl

@[simp] theorem run_ret {α : Type} (err : String) (tr : List Effect) :
    (ret err : M α).run tr = (.fail err, tr) := rfl

@[simp] theorem run_goPanic {α : Type} (msg : String) (tr : List Effect) :
    (goPanic msg : M α).run tr = (.panic msg, tr) := rfl

@[simp] theorem run_call (w : World) (e : Effect) (tr : List Effect) :
    (call w e).run tr = (.ok (w.errorOf tr e), tr ++ [e]) := rfl

@[simp] theorem run_returnIf_none (msg : String → String) (tr : List Effect) :
    (returnIf none msg).run tr = (.ok (), tr) := rfl

@[simp] theorem run_returnIf_some (e : String) (msg : String → String) (tr : List Effect) :
    (returnIf (some e) msg).run tr = (.fail (msg e), tr) := rfl

theorem run_check (w : World) (e : Effect) (tr : List Effect) :
    (check w e).run tr =
      match w.errorOf tr e with
      | some err => (.fail err, tr ++ [e])
      | none => (.ok (), tr ++ [e]) := by
  simp only [check, run_bind, run_call]
  cases w.errorOf tr e <;> rfl

@[simp] theorem run_loadExportData (w : World) (pkgs : List BuildPackage) (env : List String)
    (tr : List Effect) :
    (loadExportData w pkgs env).run tr =
      (.ok (w.typesPkgs tr pkgs env, w.errorOf tr (.loadExportData pkgs env)),
        tr ++ [.loadExportData pkgs env]) := rfl

@[simp] theorem run_newBinder (w : World) (typesPkgs : List TypesPackage) (tr : List Effect) :
    (newBinder w typesPkgs).run tr =
      (.ok (w.binderPkgs tr typesPkgs, w.errorOf tr (.newBinder typesPkgs)),
        tr ++ [.newBinder typesPkgs]) := rfl

@[simp] theorem run_genObjc (w : World) (pkg : Option TypesPackage)
    (allPkg : List TypesPackage) (outdir : String) (tr : List Effect) :
    (genObjc w pkg allPkg outdir).run tr =
      (.ok (w.objcBase tr pkg allPkg outdir, w.errorOf tr (.genObjc pkg allPkg outdir)),
        tr ++ [.genObjc pkg allPkg outdir]) := rfl

theorem run_goOSXBindArchive (w : World) (name path : String) (env fileBases : List String)
    (tr : List Effect) :
    (goOSXBindArchive w name path env fileBases).run tr =
      (.ok (match w.errorOf tr (buildCall w name path env) with
          | some e => ("", some e)
          | none => (archiveOf w name env, none)),
        tr ++ [buildCall w name path env]) := by
  simp only [goOSXBindArchive, run_bind, run_call, buildCall, archiveOf]
  cases w.errorOf tr (.goBuild path env
    ["-buildmode=c-archive", "-tags=macosx", "-o",
      w.join [w.tmpdir, name ++ "-" ++ w.getenv env "GOARCH" ++ ".a"]]) <;> rfl

/-! ## Rules for `SpecAt` and `Spec` -/

theorem specAt_pure {w : World} {α : Type} {a : α} {Q : α → Prop} {tr : List Effect}
    (h : Q a) : SpecAt w (pure a : M α) tr [] Q := by
  refine ⟨[], by simp, List.prefix_refl _, ?_, ?_⟩
  · intro b hb
    simp only [run_pure, Outcome.ok.injEq] at hb
    exact ⟨rfl, hb ▸ h⟩
  · intro h ev rest e he
    simp at he

theorem specAt_ret {w : World} {α : Type} (err : String) (tr calls : List Effect)
    (Q : α → Prop) : SpecAt w (ret err : M α) tr calls Q := by
  refine ⟨[], by simp, List.nil_prefix, ?_, ?_⟩
  · intro b hb
    simp at hb
  · intro h ev rest e he
    simp at he

theorem specAt_goPanic {w : World} {α : Type} (msg : String) (tr calls : List Effect)
    (Q : α → Prop) : SpecAt w (goPanic msg : M α) tr calls Q := by
  refine ⟨[], by simp, List.nil_prefix, ?_, ?_⟩
  · intro b hb
    simp at hb
  · intro h ev rest e he
    simp at he

/-- The value is only looked at when the run reaches its end. -/
theorem specAt_post {w : World} {α : Type} {m : M α} {tr calls : List Effect}
    {Q Q2 : α → Prop} (hm : SpecAt w m tr calls Q)
    (hq : ∀ a, (m.run tr).1 = .ok a → Q a → Q2 a) : SpecAt w m tr calls Q2 := by
  obtain ⟨evs, h2, hp, hfin, hstop⟩ := hm
  exact ⟨evs, h2, hp, fun a ha => ⟨(hfin a ha).1, hq a ha (hfin a ha).2⟩, hstop⟩

/-- One call, then the rest: when the call fails the run stops there, otherwise it goes on
as `k`. -/
theorem specAt_step {w : World} {α : Type} {m : M α} {ev : Effect} {tr calls : List Effect}
    {Q : α → Prop}
    (hfail : ∀ e, w.errorOf tr ev = some e →
      (m.run tr).2 = tr ++ [ev] ∧ (∀ a, (m.run tr).1 ≠ .ok a) ∧
      ∀ src env args, ev = .goBuild src env args →
        (m.run tr).1 = .fail ("darwin-" ++ w.archClang (w.getenv env "GOARCH") ++ ": " ++ e))
    (hok : w.errorOf tr ev = none →
      ∃ k : M α, m.run tr = k.run (tr ++ [ev]) ∧ SpecAt w k (tr ++ [ev]) calls Q) :
    SpecAt w m tr (ev :: calls) Q := by
  cases hc : w.errorOf tr ev with
  | some e =>
    obtain ⟨h2, hno, hb⟩ := hfail e hc
    refine ⟨[ev], h2, by simp, ?_, ?_⟩
    · intro a ha
      exact absurd ha (hno a)
    · intro h ev2 rest e2 hd he
      cases h with
      | nil =>
        simp only [List.nil_append, List.cons.injEq] at hd
        obtain ⟨rfl, rfl⟩ := hd
        simp only [List.append_nil] at he
        rw [hc] at he
        cases he
        exact ⟨rfl, hno, hb⟩
      | cons x h =>
        simp at hd
  | none =>
    obtain ⟨k, hk, evs, h2, hp, hfin, hstop⟩ := hok hc
    unfold SpecAt
    rw [hk]
    refine ⟨ev :: evs, by simp [h2], by simpa using hp, ?_, ?_⟩
    · intro a ha
      obtain ⟨rfl, hq⟩ := hfin a ha
      exact ⟨rfl, hq⟩
    · intro h ev2 rest e2 hd he
      cases h with
      | nil =>
        simp only [List.nil_append, List.cons.injEq] at hd
        obtain ⟨rfl, rfl⟩ := hd
        simp only [List.append_nil] at he
        rw [hc] at he
        cases he
      | cons x h =>
        simp only [List.cons_append, List.cons.injEq] at hd
        obtain ⟨rfl, rfl⟩ := hd
        exact hstop h ev2 rest e2 rfl (by simpa using he)

/-- Sequencing: the calls of `m`, then those of what follows. -/
theorem specAt_bind {w : World} {α β : Type} {m : M α} {f : α → M β}
    {tr c1 c2 : List Effect} {Q1 : α → Prop} {Q2 : β → Prop} (hm : SpecAt w m tr c1 Q1)
    (hf : ∀ a, Q1 a → (m.run tr).1 = .ok a → SpecAt w (f a) (tr ++ c1) c2 Q2) :
    SpecAt w (m >>= f) tr (c1 ++ c2) Q2 := by
  obtain ⟨evs, h2, hp, hfin, hstop⟩ := hm
  unfold SpecAt
  rw [run_bind]
  rcases hr : m.run tr with ⟨r, tr1⟩
  rw [hr] at h2 hfin hstop hf
  simp only at h2 hfin hstop hf
  subst h2
  cases r with
  | ok a =>
    obtain ⟨rfl, hq⟩ := hfin a rfl
    obtain ⟨evs2, h2, hp2, hfin2, hstop2⟩ := hf a hq rfl
    refine ⟨evs ++ evs2, by simp [h2], by simpa using hp2, ?_, ?_⟩
    · intro b hb
      obtain ⟨rfl, hq2⟩ := hfin2 b hb
      exact ⟨rfl, hq2⟩
    · intro h ev rest e hd he
      rcases List.append_eq_append_iff.mp hd with ⟨a', rfl, hd2⟩ | ⟨c', rfl, hd2⟩
      · exact hstop2 a' ev rest e hd2 (by simpa using he)
      · cases c' with
        | nil =>
          simp only [List.nil_append] at hd2
          exact hstop2 [] ev rest e hd2.symm (by simpa using he)
        | cons x c' =>
          simp only [List.cons_append, List.cons.injEq] at hd2
          obtain ⟨rfl, rfl⟩ := hd2
          exact absurd rfl ((hstop h ev c' e rfl he).2.1 a)
  | fail e0 =>
    refine ⟨evs, rfl, hp.trans (List.prefix_append _ _), ?_, ?_⟩
    · intro b hb
      simp at hb
    · intro h ev rest e hd he
      obtain ⟨h1, _, h3⟩ := hstop h ev rest e hd he
      refine ⟨h1, by simp, ?_⟩
      intro src env args hev
      have := h3 src env args hev
      simp only [Outcome.fail.injEq] at this
      simp [this]
  | panic s =>
    refine ⟨evs, rfl, hp.trans (List.prefix_append _ _), ?_, ?_⟩
    · intro b hb
      simp at hb
    · intro h ev rest e hd he
      obtain ⟨h1, _, h3⟩ := hstop h ev rest e hd he
      refine ⟨h1, by simp, ?_⟩
      intro src env args hev
      have := h3 src env args hev
      simp at this

theorem spec_bind {w : World} {α β : Type} {m : M α} {f : α → M β} {c1 c2 : List Effect}
    {Q1 : α → Prop} {Q2 : β → Prop} (hm : Spec w m c1 Q1)
    (hf : ∀ a, Q1 a → Spec w (f a) c2 Q2) : Spec w (m >>= f) (c1 ++ c2) Q2 :=
  fun tr => specAt_bind (hm tr) fun a ha _ => hf a ha _

/-- The Go idiom `if err := f(); err != nil { return err }`, then the rest. -/
theorem specAt_check_bind {w : World} {α : Type} {ev : Effect} {k : Unit → M α}
    {tr calls : List Effect} {Q : α → Prop}
    (hne : ∀ src env args, ev ≠ .goBuild src env args)
    (hk : SpecAt w (k ()) (tr ++ [ev]) calls Q) :
    SpecAt w (check w ev >>= k) tr (ev :: calls) Q := by
  refine specAt_step ?_ ?_
  · intro e hc
    have hr : (check w ev >>= k).run tr = (.fail e, tr ++ [ev]) := by
      simp only [run_bind, run_check, hc]
    rw [hr]
    exact ⟨rfl, by simp, fun src env args h => absurd h (hne src env args)⟩
  · intro hc
    exact ⟨k (), by simp only [run_bind, run_check, hc], hk⟩

theorem spec_check_bind {w : World} {α : Type} {ev : Effect} {k : Unit → M α}
    {calls : List Effect} {Q : α → Prop} (hne : ∀ src env args, ev ≠ .goBuild src env args)
    (hk : Spec w (k ()) calls Q) : Spec w (check w ev >>= k) (ev :: calls) Q :=
  fun _ => specAt_check_bind hne (hk _)

theorem specAt_check {w : World} {ev : Effect} {tr : List Effect} {Q : Unit → Prop}
    (hne : ∀ src env args, ev ≠ .goBuild src env args) (hq : Q ()) :
    SpecAt w (check w ev) tr [ev] Q := by
  refine specAt_step ?_ ?_
  · intro e hc
    have hr : (Gomobile.check w ev).run tr = (.fail e, tr ++ [ev]) := by
      simp only [run_check, hc]
    rw [hr]
    exact ⟨rfl, by simp, fun src env args h => absurd h (hne src env args)⟩
  · intro hc
    exact ⟨Pure.pure (), by simp only [run_check, hc, run_pure], specAt_pure hq⟩

/-! ## The sections of `goOSXBind` -/

theorem genGoLoop_spec (w : World) (allPkg : List TypesPackage) (srcDir : String)
    (l : List TypesPackage) :
    Spec w (genGoLoop w allPkg srcDir l) (l.map fun p => .genGo (some p) allPkg srcDir)
      (fun _ => True) := by
  induction l with
  | nil => exact fun tr => specAt_pure trivial
  | cons p rest ih => exact spec_check_bind (by simp) ih

theorem genObjcLoop_spec (w : World) (allPkg : List TypesPackage) (srcDir : String)
    (l : List TypesPackage) (i : Nat) (fileBases : List String) :
    Spec w (genObjcLoop w allPkg srcDir i l fileBases)
      (l.map fun p => .genObjc (some p) allPkg srcDir)
      (fun fb => fb.length = fileBases.length) := by
  induction l generalizing i fileBases with
  | nil => exact fun tr => specAt_pure rfl
  | cons p rest ih =>
    intro tr
    refine specAt_step ?_ ?_
    · intro e hc
      simp only [genObjcLoop, run_bind, run_genObjc, hc]
      split <;> simp [run_bind]
    · intro hc
      simp only [genObjcLoop, run_bind, run_genObjc, hc]
      by_cases hi : i < fileBases.length
      · refine ⟨genObjcLoop w allPkg srcDir (i + 1) rest
          (fileBases.set i (w.objcBase tr (some p) allPkg srcDir)), by simp [hi, run_bind], ?_⟩
        exact specAt_post (ih _ _ _) (by simp)
      · exact ⟨goPanic "index out of range", by simp [hi], specAt_goPanic _ _ _ _⟩

theorem run_bind_of_ok {α β : Type} {m : M α} {f : α → M β} {tr tr1 : List Effect} {a : α}
    (h : m.run tr = (.ok a, tr1)) : (m >>= f).run tr = (f a).run tr1 := by
  rw [run_bind, h]

theorem specAt_of_run_eq {w : World} {α : Type} {m k : M α} {tr calls : List Effect}
    {Q : α → Prop} (h : m.run tr = k.run tr) (hk : SpecAt w k tr calls Q) :
    SpecAt w m tr calls Q := by
  unfold SpecAt
  rw [h]
  exact hk

/-- The Go idiom with a wrapped message: `if err := f(); err != nil { return msg(err) }`. -/
theorem spec_call_bind {w : World} {α : Type} {ev : Effect} {msg : String → String}
    {k : Unit → M α} {calls : List Effect} {Q : α → Prop}
    (hne : ∀ src env args, ev ≠ .goBuild src env args) (hk : Spec w (k ()) calls Q) :
    Spec w (call w ev >>= fun err => returnIf err msg >>= k) (ev :: calls) Q := by
  intro tr
  refine specAt_step ?_ ?_
  · intro e hc
    have hr : (call w ev >>= fun err => returnIf err msg >>= k).run tr =
        (.fail (msg e), tr ++ [ev]) := by
      simp only [run_bind, run_call, hc, run_returnIf_some]
    rw [hr]
    exact ⟨rfl, by simp, fun src env args h => absurd h (hne src env args)⟩
  · intro hc
    exact ⟨k (), by simp only [run_bind, run_call, hc, run_returnIf_none], hk _⟩

theorem goOSXBindGenerate_spec (w : World) (typesPkgs binderPkgs : List TypesPackage)
    (srcDir mainFile : String) :
    Spec w (goOSXBindGenerate w typesPkgs binderPkgs srcDir mainFile)
      (generateCalls binderPkgs srcDir mainFile)
      (fun fb => fb.length = typesPkgs.length + 1) := by
  unfold goOSXBindGenerate generateCalls
  refine spec_bind (genGoLoop_spec w binderPkgs srcDir binderPkgs) fun _ _ => ?_
  refine spec_check_bind (by simp) ?_
  refine spec_call_bind (by simp) ?_
  refine spec_bind (genObjcLoop_spec w binderPkgs srcDir binderPkgs 0 _) fun fb hfb => ?_
  intro tr
  refine specAt_step ?_ ?_
  · intro e hc
    simp [run_bind, hc]
  · intro hc
    refine ⟨_, run_bind_of_ok (run_genObjc _ _ _ _ _), ?_⟩
    simp only [hc]
    refine specAt_of_run_eq (run_bind_of_ok (run_returnIf_none _ _)) ?_
    refine spec_check_bind (by simp) ?_ _
    refine spec_check_bind (by simp) ?_
    intro tr2
    refine specAt_pure ?_
    simpa using hfb

theorem archiveLoop_spec (w : World) (name mainFile : String) (fileBases : List String)
    (envs : List (List String)) (args : List String) :
    Spec w (archiveLoop w name mainFile fileBases envs args)
      (envs.map fun env => buildCall w name mainFile env)
      (fun a => a = args ++ envs.flatMap fun env =>
        ["-arch", w.archClang (w.getenv env "GOARCH"), archiveOf w name env]) := by
  induction envs generalizing args with
  | nil => exact fun tr => specAt_pure (by simp)
  | cons env rest ih =>
    intro tr
    refine specAt_step ?_ ?_
    · intro e hc
      have hr : (archiveLoop w name mainFile fileBases (env :: rest) args).run tr =
          (.fail ("darwin-" ++ w.archClang (w.getenv env "GOARCH") ++ ": " ++ e),
            tr ++ [buildCall w name mainFile env]) := by
        simp only [archiveLoop, run_bind, run_goOSXBindArchive, hc, run_returnIf_some]
      rw [hr]
      refine ⟨rfl, by simp, ?_⟩
      intro src env2 args2 hev
      simp only [buildCall, Effect.goBuild.injEq] at hev
      rw [hev.2.1]
    · intro hc
      refine ⟨archiveLoop w name mainFile fileBases rest
        (args ++ ["-arch", w.archClang (w.getenv env "GOARCH"), archiveOf w name env]), ?_, ?_⟩
      · simp only [archiveLoop, run_bind, run_goOSXBindArchive, hc, run_returnIf_none]
      · exact specAt_post (ih _ _) (by simp)

theorem set_length_append {α : Type} (pre : List α) (s x : α) (suf : List α) :
    (pre ++ s :: suf).set pre.length x = pre ++ x :: suf := by
  induction pre with
  | nil => rfl
  | cons a pre ih => simp [ih]

theorem copyLoop_spec (w : World) (headers srcDir : String) (l pre suf : List String)
    (hl : l.length ≤ suf.length) :
    Spec w (copyLoop w headers srcDir pre.length l (pre ++ suf))
      (l.map fun b => .copyFile (headers ++ "/" ++ b ++ ".h") (srcDir ++ "/" ++ b ++ ".h"))
      (fun hf => hf = pre ++ (l.map fun b => b ++ ".h") ++ suf.drop l.length) := by
  induction l generalizing pre suf with
  | nil => exact fun tr => specAt_pure (by simp)
  | cons b rest ih =>
    cases suf with
    | nil => simp at hl
    | cons s suf =>
      simp only [copyLoop, set_length_append]
      refine spec_check_bind (by simp) ?_
      have h := ih (pre ++ [b ++ ".h"]) suf (by simpa using hl)
      simp only [List.length_append, List.length_singleton, List.append_assoc,
        List.singleton_append] at h
      intro tr
      exact specAt_post (h tr) (by simp)

/-- When no copy fails, the loop of lines 120-128 runs to its end. -/
theorem copyLoop_run (w : World) (headers srcDir : String) (l pre suf : List String)
    (tr : List Effect) (hl : l.length ≤ suf.length)
    (hok : ∀ h dst src, w.errorOf h (.copyFile dst src) = none) :
    (copyLoop w headers srcDir pre.length l (pre ++ suf)).run tr =
      (.ok (pre ++ (l.map fun b => b ++ ".h") ++ suf.drop l.length),
        tr ++ l.map fun b =>
          .copyFile (headers ++ "/" ++ b ++ ".h") (srcDir ++ "/" ++ b ++ ".h")) := by
  induction l generalizing pre suf tr with
  | nil => simp [copyLoop]
  | cons b rest ih =>
    cases suf with
    | nil => simp at hl
    | cons s suf =>
      have h := ih (pre ++ [b ++ ".h"]) suf (tr ++ [.copyFile (headers ++ "/" ++ b ++ ".h")
        (srcDir ++ "/" ++ b ++ ".h")]) (by simpa using hl)
      simp only [List.length_append, List.length_singleton, List.append_assoc,
        List.singleton_append] at h
      simp only [copyLoop, set_length_append, run_bind, run_check, hok, h]
      simp

theorem goOSXBindHeaders_spec (w : World) (pkgs : List BuildPackage)
    (title srcDir headers : String) (fileBases : List String) :
    Spec w (goOSXBindHeaders w pkgs title srcDir headers fileBases)
      (headerCalls w pkgs title srcDir headers fileBases)
      (fun hf => hf = headerFilesOf title fileBases) := by
  unfold goOSXBindHeaders headerCalls headerFilesOf
  by_cases h : fileBases.length = 1
  · simp only [if_pos h]
    refine spec_check_bind (by simp) ?_
    intro tr
    refine specAt_pure ?_
    rw [h]
    rfl
  · simp only [if_neg h]
    have hc := copyLoop_spec w headers srcDir fileBases [] (List.replicate fileBases.length "")
      (by simp)
    simp only [List.length_nil, List.nil_append] at hc
    refine spec_bind hc fun a ha => ?_
    refine spec_check_bind (by simp) ?_
    intro tr
    refine specAt_pure ?_
    simp [ha]

/-- The calls of lines 85-165; when they have all been made, the placement of the headers,
which started after the call of the merge tool, has yielded `headerFilesOf`. -/
theorem goOSXBindLayout_spec (w : World) (pkgs : List BuildPackage)
    (title buildO srcDir : String) (args fileBases : List String) (tr : List Effect) :
    SpecAt w (goOSXBindLayout w pkgs title buildO srcDir args fileBases) tr
      (layoutCalls w pkgs title buildO srcDir args fileBases)
      (fun _ => ∃ trH, trH <+: tr ++ layoutCalls w pkgs title buildO srcDir args fileBases ∧
        ((goOSXBindHeaders w pkgs title srcDir (buildO ++ "/Versions/A/Headers")
          fileBases).run trH).1 = .ok (headerFilesOf title fileBases)) := by
  unfold goOSXBindLayout layoutCalls
  refine specAt_check_bind (by simp) ?_
  refine specAt_check_bind (by simp) ?_
  refine specAt_check_bind (by simp) ?_
  refine specAt_check_bind (by simp) ?_
  refine specAt_check_bind (by simp) ?_
  refine specAt_check_bind (by simp) ?_
  refine specAt_bind (goOSXBindHeaders_spec w pkgs title srcDir _ fileBases _) ?_
  rintro a rfl hrun
  refine specAt_check_bind (by simp) ?_
  refine specAt_check_bind (by simp) ?_
  refine specAt_check_bind (by simp) ?_
  refine specAt_check_bind (by simp) ?_
  refine specAt_check (by simp) ⟨_, ?_, hrun⟩
  simp [List.prefix_append]

/-- Every run of `goOSXBindEnvs` from the empty trace, against the list `fullCalls`. -/
theorem goOSXBindEnvs_spec (w : World) (envs : List (List String)) (pkgs : List BuildPackage)
    (buildO : String) :
    ∃ fb : List String, fb.length = (loadedPkgs w pkgs).length + 1 ∧
      SpecAt w (goOSXBindEnvs w envs pkgs buildO) [] (fullCalls w envs pkgs buildO fb)
        (fun _ => boundPkgs w pkgs ≠ [] ∧ (buildO = "" ∨ hasSuffix buildO ".framework" = true) ∧
          ((goOSXBindGenerate w (loadedPkgs w pkgs) (boundPkgs w pkgs) (bindSrcDir w)
            (bindMainFile w)).run
              [.loadExportData pkgs w.darwinOsxEnv, .newBinder (loadedPkgs w pkgs)]).1 =
            .ok fb ∧
          ∃ trH, trH <+: fullCalls w envs pkgs buildO fb ∧
            ((goOSXBindHeaders w pkgs (bindTitle w pkgs) (bindSrcDir w)
              (bundleRoot w pkgs buildO ++ "/Versions/A/Headers") fb).run trH).1 =
              .ok (headerFilesOf (bindTitle w pkgs) fb)) := by
  obtain ⟨fb, hlen, hfb⟩ : ∃ fb : List String, fb.length = (loadedPkgs w pkgs).length + 1 ∧
      ∀ a, ((goOSXBindGenerate w (loadedPkgs w pkgs) (boundPkgs w pkgs) (bindSrcDir w)
        (bindMainFile w)).run
          [.loadExportData pkgs w.darwinOsxEnv, .newBinder (loadedPkgs w pkgs)]).1 = .ok a →
        a = fb := by
    obtain ⟨evs, _, _, hfin, _⟩ := goOSXBindGenerate_spec w (loadedPkgs w pkgs)
      (boundPkgs w pkgs) (bindSrcDir w) (bindMainFile w)
      [.loadExportData pkgs w.darwinOsxEnv, .newBinder (loadedPkgs w pkgs)]
    rcases hg : ((goOSXBindGenerate w (loadedPkgs w pkgs) (boundPkgs w pkgs) (bindSrcDir w)
        (bindMainFile w)).run
          [.loadExportData pkgs w.darwinOsxEnv, .newBinder (loadedPkgs w pkgs)]).1 with a | e | s
    · exact ⟨a, (hfin a hg).2, fun b hb => by simpa using hb.symm⟩
    · exact ⟨List.replicate ((loadedPkgs w pkgs).length + 1) "", by simp, by simp⟩
    · exact ⟨List.replicate ((loadedPkgs w pkgs).length + 1) "", by simp, by simp⟩
  refine ⟨fb, hlen, ?_⟩
  unfold goOSXBindEnvs fullCalls
  refine specAt_step ?_ ?_
  · intro e hc
    simp [run_bind, hc]
  · intro hc
    refine ⟨_, run_bind_of_ok (run_loadExportData _ _ _ _), ?_⟩
    simp only [hc]
    refine specAt_of_run_eq (run_bind_of_ok (run_returnIf_none _ _)) ?_
    refine specAt_step ?_ ?_
    · intro e hc2
      simp [loadedPkgs] at hc2
      simp [run_bind, hc2, loadedPkgs]
    · intro hc2
      refine ⟨_, run_bind_of_ok (run_newBinder _ _ _), ?_⟩
      simp only [loadedPkgs] at hc2
      simp only [hc2]
      refine specAt_of_run_eq (run_bind_of_ok (run_returnIf_none _ _)) ?_
      have hbp2 : w.binderPkgs ([] ++ [Effect.loadExportData pkgs w.darwinOsxEnv])
          (w.typesPkgs [] pkgs w.darwinOsxEnv) = boundPkgs w pkgs := rfl
      simp only [hbp2]
      rcases hbp : boundPkgs w pkgs with _ | ⟨p, rest⟩
      · exact specAt_goPanic _ _ _ _
      · simp only []
        by_cases hv : (buildO != "" && !hasSuffix buildO ".framework") = true
        · simp only [hv, if_true]
          exact specAt_ret _ _ _ _
        · have hname : bindName w pkgs = p.name := by simp [bindName, hbp]
          have hvalid : buildO = "" ∨ hasSuffix buildO ".framework" = true := by
            by_cases h0 : buildO = ""
            · exact Or.inl h0
            · right
              simpa [h0] using hv
          rw [hbp] at hfb
          simp only [hv, Bool.false_eq_true, if_false, beq_iff_eq, bindTitle, bundleRoot, hname,
            bindSrcDir, bindMainFile]
          refine specAt_bind (goOSXBindGenerate_spec w _ _ _ _ _) fun a _ ha => ?_
          obtain rfl := hfb a ha
          refine specAt_bind (archiveLoop_spec w _ _ _ _ _ _) fun args hargs _ => ?_
          subst hargs
          refine specAt_post (goOSXBindLayout_spec w pkgs _ _ _ _ _ _)
            (fun _ _ hq => ⟨by simp, hvalid, ha, ?_⟩)
          obtain ⟨trH, hpre, hrun⟩ := hq
          exact ⟨trH, by simpa using hpre, hrun⟩

/-- The three facts of `goOSXBindEnvs_spec`, spelled out. -/
theorem goOSXBindEnvs_run (w : World) (envs : List (List String)) (pkgs : List BuildPackage)
    (buildO : String) :
    ∃ fb : List String, fb.length = (loadedPkgs w pkgs).length + 1 ∧
      ((goOSXBindEnvs w envs pkgs buildO).run []).2 <+: fullCalls w envs pkgs buildO fb ∧
      (∀ u, ((goOSXBindEnvs w envs pkgs buildO).run []).1 = .ok u →
        ((goOSXBindEnvs w envs pkgs buildO).run []).2 = fullCalls w envs pkgs buildO fb ∧
        boundPkgs w pkgs ≠ [] ∧ (buildO = "" ∨ hasSuffix buildO ".framework" = true) ∧
        ((goOSXBindGenerate w (loadedPkgs w pkgs) (boundPkgs w pkgs) (bindSrcDir w)
          (bindMainFile w)).run
            [.loadExportData pkgs w.darwinOsxEnv, .newBinder (loadedPkgs w pkgs)]).1 =
          .ok fb ∧
        ∃ trH, trH <+: fullCalls w envs pkgs buildO fb ∧
          ((goOSXBindHeaders w pkgs (bindTitle w pkgs) (bindSrcDir w)
            (bundleRoot w pkgs buildO ++ "/Versions/A/Headers") fb).run trH).1 =
            .ok (headerFilesOf (bindTitle w pkgs) fb)) ∧
      (∀ h ev rest e, ((goOSXBindEnvs w envs pkgs buildO).run []).2 = h ++ ev :: rest →
        w.errorOf h ev = some e →
        rest = [] ∧ (∀ u, ((goOSXBindEnvs w envs pkgs buildO).run []).1 ≠ .ok u) ∧
        ∀ src env args, ev = .goBuild src env args →
          ((goOSXBindEnvs w envs pkgs buildO).run []).1 =
            .fail ("darwin-" ++ w.archClang (w.getenv env "GOARCH") ++ ": " ++ e)) := by
  obtain ⟨fb, hlen, evs, h2, hp, hfin, hstop⟩ := goOSXBindEnvs_spec w envs pkgs buildO
  simp only [List.nil_append] at h2 hstop
  refine ⟨fb, hlen, h2 ▸ hp, ?_, ?_⟩
  · intro u hu
    obtain ⟨h3, h4⟩ := hfin u hu
    exact ⟨h2.trans h3, h4⟩
  · intro h ev rest e hd he
    exact hstop h ev rest e (h2 ▸ hd) he

/-! ## Successful runs, and the calls by kind -/

/-- The trace of a run of `goOSXBindEnvs` that succeeds. -/
theorem goOSXBindEnvs_ok (w : World) (envs : List (List String)) (pkgs : List BuildPackage)
    (buildO : String) (tr : List Effect)
    (hrun : (goOSXBindEnvs w envs pkgs buildO).run [] = (.ok (), tr)) :
    ∃ fb : List String, fb.length = (loadedPkgs w pkgs).length + 1 ∧
      tr = fullCalls w envs pkgs buildO fb ∧
      boundPkgs w pkgs ≠ [] ∧ (buildO = "" ∨ hasSuffix buildO ".framework" = true) ∧
      ((goOSXBindGenerate w (loadedPkgs w pkgs) (boundPkgs w pkgs) (bindSrcDir w)
        (bindMainFile w)).run
          [.loadExportData pkgs w.darwinOsxEnv, .newBinder (loadedPkgs w pkgs)]).1 = .ok fb ∧
      ∃ trH, trH <+: tr ∧
        ((goOSXBindHeaders w pkgs (bindTitle w pkgs) (bindSrcDir w)
          (bundleRoot w pkgs buildO ++ "/Versions/A/Headers") fb).run trH).1 =
          .ok (headerFilesOf (bindTitle w pkgs) fb) := by
  obtain ⟨fb, hlen, _, hfin, _⟩ := goOSXBindEnvs_run w envs pkgs buildO
  rw [hrun] at hfin
  obtain ⟨h1, h2, h3, h4, trH, h5, h6⟩ := hfin () rfl
  simp only at h1
  exact ⟨fb, hlen, h1, h2, h3, h4, trH, h1 ▸ h5, h6⟩

theorem mem_generateCalls {binderPkgs : List TypesPackage} {srcDir mainFile : String}
    {e : Effect} (h : e ∈ generateCalls binderPkgs srcDir mainFile) :
    (∃ pkg, e = .genGo pkg binderPkgs srcDir) ∨ e = .writeFile mainFile osxBindFile ∨
    (∃ pkg, e = .genObjc pkg binderPkgs srcDir) ∨ e = .genObjcSupport srcDir ∨
    e = .genGoSupport srcDir := by
  simp only [generateCalls, List.mem_append, List.mem_map, List.mem_cons, List.mem_singleton,
    List.not_mem_nil, or_false] at h
  rcases h with ⟨p, _, rfl⟩ | rfl | rfl | ⟨p, _, rfl⟩ | rfl | rfl | rfl
  · exact Or.inl ⟨_, rfl⟩
  · exact Or.inl ⟨_, rfl⟩
  · exact Or.inr (Or.inl rfl)
  · exact Or.inr (Or.inr (Or.inl ⟨_, rfl⟩))
  · exact Or.inr (Or.inr (Or.inl ⟨_, rfl⟩))
  · exact Or.inr (Or.inr (Or.inr (Or.inl rfl)))
  · exact Or.inr (Or.inr (Or.inr (Or.inr rfl)))

theorem mem_headerCalls {w : World} {pkgs : List BuildPackage} {title srcDir headers : String}
    {fileBases : List String} {e : Effect}
    (h : e ∈ headerCalls w pkgs title srcDir headers fileBases) :
    (∃ name src, e = .copyFile (headers ++ "/" ++ name) src) ∨
    e = .writeFile (headers ++ "/" ++ title ++ ".h") (osxBindHeaderTmpl pkgs title fileBases) := by
  unfold headerCalls at h
  split at h
  · simp only [List.mem_singleton] at h
    exact Or.inl ⟨title ++ ".h", _, by rw [h, String.append_assoc]⟩
  · simp only [List.mem_append, List.mem_map, List.mem_singleton] at h
    rcases h with ⟨b, _, rfl⟩ | rfl
    · exact Or.inl ⟨b ++ ".h", _, by rw [String.append_assoc]⟩
    · exact Or.inr rfl

theorem generateCalls_symlinkOf (binderPkgs : List TypesPackage) (srcDir mainFile : String) :
    (generateCalls binderPkgs srcDir mainFile).filterMap Effect.symlinkOf = [] := by
  rw [List.filterMap_eq_nil_iff]
  intro e he
  rcases mem_generateCalls he with ⟨_, rfl⟩ | rfl | ⟨_, rfl⟩ | rfl | rfl <;> rfl

theorem buildCalls_symlinkOf (w : World) (name mainFile : String) (envs : List (List String)) :
    (envs.map fun env => buildCall w name mainFile env).filterMap Effect.symlinkOf = [] := by
  rw [List.filterMap_eq_nil_iff]
  intro e he
  obtain ⟨_, _, rfl⟩ := List.mem_map.mp he
  rfl

theorem headerCalls_symlinkOf (w : World) (pkgs : List BuildPackage)
    (title srcDir headers : String) (fileBases : List String) :
    (headerCalls w pkgs title srcDir headers fileBases).filterMap Effect.symlinkOf = [] := by
  rw [List.filterMap_eq_nil_iff]
  intro e he
  rcases mem_headerCalls he with ⟨_, _, rfl⟩ | rfl <;> rfl

theorem fullCalls_symlinkOf (w : World) (envs : List (List String)) (pkgs : List BuildPackage)
    (buildO : String) (fb : List String) :
    (fullCalls w envs pkgs buildO fb).filterMap Effect.symlinkOf =
      [("A", bundleRoot w pkgs buildO ++ "/Versions/Current"),
        ("Versions/Current/Headers", bundleRoot w pkgs buildO ++ "/Headers"),
        ("Versions/Current/" ++ bindTitle w pkgs,
          bundleRoot w pkgs buildO ++ "/" ++ bindTitle w pkgs),
        ("Versions/Current/Resources", bundleRoot w pkgs buildO ++ "/Resources"),
        ("Versions/Current/Modules", bundleRoot w pkgs buildO ++ "/Modules")] := by
  simp only [fullCalls, layoutCalls, List.filterMap_cons, List.filterMap_append,
    Effect.symlinkOf, headerCalls_symlinkOf, generateCalls_symlinkOf, buildCalls_symlinkOf,
    List.filterMap_nil, List.nil_append, List.append_nil]

theorem fullCalls_usesRoot (w : World) (envs : List (List String)) (pkgs : List BuildPackage)
    (buildO : String) (fb : List String) (e : Effect)
    (he : e ∈ fullCalls w envs pkgs buildO fb) :
    usesRoot w (bundleRoot w pkgs buildO) (bindTitle w pkgs) e = true := by
  simp only [fullCalls, layoutCalls, List.mem_cons, List.mem_append, List.mem_map,
    List.mem_singleton, List.not_mem_nil, or_false] at he
  rcases he with rfl | rfl | hg | ⟨env, _, rfl⟩ | rfl | rfl | rfl | rfl | rfl | rfl | hh |
    rfl | rfl | rfl | rfl | rfl
  · rfl
  · rfl
  · rcases mem_generateCalls hg with ⟨_, rfl⟩ | rfl | ⟨_, rfl⟩ | rfl | rfl
    · rfl
    · simp [usesRoot]
    · rfl
    · rfl
    · rfl
  · rfl
  · simp [usesRoot]
  · simp [usesRoot]
  · simp [usesRoot]
  · simp [usesRoot]
  · simp [usesRoot]
  · have hlast : ∀ (a : List String) (x y : String), (a ++ [x, y]).getLast? = some y := by
      intro a x y
      rw [show a ++ [x, y] = (a ++ [x]) ++ [y] by simp]
      exact List.getLast?_concat _
    simp only [usesRoot, hlast]
    simp
  · rcases mem_headerCalls hh with ⟨name, src, rfl⟩ | rfl
    · simp [usesRoot, String.data_append]
    · simp [usesRoot]
  · simp [usesRoot]
  · simp [usesRoot]
  · simp [usesRoot]
  · simp [usesRoot]
  · simp [usesRoot]

theorem generateCalls_isRunCmd (binderPkgs : List TypesPackage) (srcDir mainFile : String) :
    (generateCalls binderPkgs srcDir mainFile).filter Effect.isRunCmd = [] := by
  rw [List.filter_eq_nil_iff]
  intro e he
  rcases mem_generateCalls he with ⟨_, rfl⟩ | rfl | ⟨_, rfl⟩ | rfl | rfl <;> simp [Effect.isRunCmd]

theorem buildCalls_isRunCmd (w : World) (name mainFile : String) (envs : List (List String)) :
    (envs.map fun env => buildCall w name mainFile env).filter Effect.isRunCmd = [] := by
  rw [List.filter_eq_nil_iff]
  intro e he
  obtain ⟨_, _, rfl⟩ := List.mem_map.mp he
  simp [Effect.isRunCmd, buildCall]

theorem headerCalls_isRunCmd (w : World) (pkgs : List BuildPackage)
    (title srcDir headers : String) (fileBases : List String) :
    (headerCalls w pkgs title srcDir headers fileBases).filter Effect.isRunCmd = [] := by
  rw [List.filter_eq_nil_iff]
  intro e he
  rcases mem_headerCalls he with ⟨_, _, rfl⟩ | rfl <;> simp [Effect.isRunCmd]

theorem fullCalls_isRunCmd (w : World) (envs : List (List String)) (pkgs : List BuildPackage)
    (buildO : String) (fb : List String) :
    (fullCalls w envs pkgs buildO fb).filter Effect.isRunCmd =
      [.runCmd (lipoArgs w (bindName w pkgs) envs (bundleRoot w pkgs buildO)
        (bindTitle w pkgs))] := by
  simp only [fullCalls, layoutCalls, List.filter_cons, List.filter_append,
    Effect.isRunCmd, headerCalls_isRunCmd, generateCalls_isRunCmd, buildCalls_isRunCmd,
    List.filter_nil, List.nil_append, List.append_nil, lipoArgs]
  simp

theorem lipo_triples_length (f : List String → List String) (envs : List (List String))
    (hf : ∀ env, (f env).length = 3) : (envs.flatMap f).length = 3 * envs.length := by
  induction envs with
  | nil => rfl
  | cons env rest ih =>
    simp only [List.flatMap_cons, List.length_append, List.length_cons, ih, hf]
    omega

theorem bind_ok {α β : Type} {m : M α} {f : α → M β} {tr tr2 : List Effect} {b : β} :
    (m >>= f).run tr = (.ok b, tr2) ↔
      ∃ a tr1, m.run tr = (.ok a, tr1) ∧ (f a).run tr1 = (.ok b, tr2) := by
  rw [run_bind]
  rcases h : m.run tr with ⟨r, tr1⟩
  cases r with
  | ok a =>
    constructor
    · intro h2
      exact ⟨a, tr1, rfl, h2⟩
    · rintro ⟨a2, tr3, h3, h4⟩
      simp only [Prod.mk.injEq, Outcome.ok.injEq] at h3
      obtain ⟨rfl, rfl⟩ := h3
      exact h4
  | fail e => simp
  | panic s => simp

theorem bind_fst_ok {α β : Type} {m : M α} {f : α → M β} {tr : List Effect} {b : β} :
    ((m >>= f).run tr).1 = .ok b ↔
      ∃ a tr1, m.run tr = (.ok a, tr1) ∧ ((f a).run tr1).1 = .ok b := by
  rw [run_bind]
  rcases h : m.run tr with ⟨r, tr1⟩
  cases r with
  | ok a =>
    constructor
    · intro h2
      exact ⟨a, tr1, rfl, h2⟩
    · rintro ⟨a2, tr3, h3, h4⟩
      simp only [Prod.mk.injEq, Outcome.ok.injEq] at h3
      obtain ⟨rfl, rfl⟩ := h3
      exact h4
  | fail e => simp
  | panic s => simp

theorem check_ok {w : World} {e : Effect} {tr tr2 : List Effect} {u : Unit} :
    (check w e).run tr = (.ok u, tr2) ↔ w.errorOf tr e = none ∧ tr2 = tr ++ [e] := by
  rw [run_check]
  cases w.errorOf tr e <;> simp [eq_comm]

theorem returnIf_ok {err : Option String} {msg : String → String} {tr tr2 : List Effect}
    {u : Unit} : (returnIf err msg).run tr = (.ok u, tr2) ↔ err = none ∧ tr2 = tr := by
  cases err <;> simp [eq_comm]

theorem goOSXBindGenerate_single (w : World) (p : TypesPackage) (srcDir mainFile : String)
    (tr : List Effect) (fb : List String)
    (h : ((goOSXBindGenerate w [p] [p] srcDir mainFile).run tr).1 = .ok fb) :
    fb = [w.objcBase (tr ++ [.genGo (some p) [p] srcDir, .genGo none [p] srcDir,
            .writeFile mainFile osxBindFile]) (some p) [p] srcDir,
          w.objcBase (tr ++ [.genGo (some p) [p] srcDir, .genGo none [p] srcDir,
            .writeFile mainFile osxBindFile, .genObjc (some p) [p] srcDir]) none [p] srcDir] := by
  simp [goOSXBindGenerate, genGoLoop, genObjcLoop, bind_fst_ok, bind_ok, check_ok,
    returnIf_ok] at h
  obtain ⟨_, ⟨-, rfl⟩, _, ⟨-, rfl⟩, _, _, ⟨-, rfl⟩, _, ⟨-, rfl⟩, _, _,
    ⟨_, _, _, ⟨⟨rfl, -⟩, rfl⟩, ⟨-, rfl⟩, rfl⟩, _, _, _, ⟨⟨rfl, -⟩, rfl⟩, _, ⟨-, rfl⟩, _,
    ⟨-, rfl⟩, -, rfl⟩ := h
  simp

theorem prefix_of_last_not_mem {α : Type} {l p q : List α} {x : α}
    (h : l ++ [x] <+: p ++ q) (hx : x ∉ q) : l ++ [x] <+: p := by
  obtain ⟨t, ht⟩ := h
  rcases List.append_eq_append_iff.mp ht with ⟨a, hp, _⟩ | ⟨c, hc, hq⟩
  · exact ⟨a, hp.symm⟩
  · rcases List.eq_nil_or_concat c with rfl | ⟨c2, y, rfl⟩
    · simp only [List.append_nil] at hc
      rw [hc]
    · simp only [List.concat_eq_append] at hc hq
      rw [← List.append_assoc] at hc
      have hxy : x = y := by
        have := congrArg List.getLast? hc
        simpa [List.getLast?_concat] using this
      subst hxy
      exact absurd (by rw [hq]; simp) hx

theorem layoutCalls_isGoBuild (w : World) (pkgs : List BuildPackage)
    (title buildO srcDir : String) (args fileBases : List String) (e : Effect)
    (he : e ∈ layoutCalls w pkgs title buildO srcDir args fileBases) :
    e.isGoBuild = false := by
  simp only [layoutCalls, List.mem_cons, List.mem_append, List.mem_singleton,
    List.not_mem_nil, or_false] at he
  rcases he with rfl | rfl | rfl | rfl | rfl | rfl | hh | rfl | rfl | rfl | rfl | rfl
  all_goals first
    | rfl
    | (rcases mem_headerCalls hh with ⟨_, _, rfl⟩ | rfl <;> rfl)

theorem prepareCalls_beforeLayout (w : World) (envs : List (List String))
    (pkgs : List BuildPackage) (e : Effect)
    (he : e ∈ Effect.loadExportData pkgs w.darwinOsxEnv :: .newBinder (loadedPkgs w pkgs) ::
      (generateCalls (boundPkgs w pkgs) (bindSrcDir w) (bindMainFile w) ++
        envs.map fun env => buildCall w (bindName w pkgs) (bindMainFile w) env)) :
    beforeLayout w e = true ∧
    ∀ src env args, e = .goBuild src env args →
      src = bindMainFile w ∧
      args = ["-buildmode=c-archive", "-tags=macosx", "-o", archiveOf w (bindName w pkgs) env] := by
  simp only [List.mem_cons, List.mem_append, List.mem_map] at he
  rcases he with rfl | rfl | hg | ⟨env, _, rfl⟩
  · exact ⟨rfl, by simp⟩
  · exact ⟨rfl, by simp⟩
  · rcases mem_generateCalls hg with ⟨_, rfl⟩ | rfl | ⟨_, rfl⟩ | rfl | rfl
    · exact ⟨rfl, by simp⟩
    · exact ⟨by simp [beforeLayout], by simp⟩
    · exact ⟨rfl, by simp⟩
    · exact ⟨rfl, by simp⟩
    · exact ⟨rfl, by simp⟩
  · refine ⟨rfl, ?_⟩
    intro src env2 args h
    simp only [buildCall, Effect.goBuild.injEq] at h
    obtain ⟨rfl, rfl, rfl⟩ := h
    exact ⟨rfl, rfl⟩

theorem generateCalls_writeOf (binderPkgs : List TypesPackage) (srcDir mainFile : String) :
    (generateCalls binderPkgs srcDir mainFile).filterMap Effect.writeOf =
      [(mainFile, osxBindFile)] := by
  have h1 : (binderPkgs.map fun p => Effect.genGo (some p) binderPkgs srcDir).filterMap
      Effect.writeOf = [] := by
    rw [List.filterMap_eq_nil_iff]
    intro e he
    obtain ⟨_, _, rfl⟩ := List.mem_map.mp he
    rfl
  have h2 : (binderPkgs.map fun p => Effect.genObjc (some p) binderPkgs srcDir).filterMap
      Effect.writeOf = [] := by
    rw [List.filterMap_eq_nil_iff]
    intro e he
    obtain ⟨_, _, rfl⟩ := List.mem_map.mp he
    rfl
  simp only [generateCalls, List.filterMap_append, List.filterMap_cons, h1, h2,
    Effect.writeOf, List.filterMap_nil, List.nil_append, List.append_nil]

theorem buildCalls_writeOf (w : World) (name mainFile : String) (envs : List (List String)) :
    (envs.map fun env => buildCall w name mainFile env).filterMap Effect.writeOf = [] := by
  rw [List.filterMap_eq_nil_iff]
  intro e he
  obtain ⟨_, _, rfl⟩ := List.mem_map.mp he
  rfl

theorem fullCalls_last_write (w : World) (envs : List (List String)) (pkgs : List BuildPackage)
    (buildO : String) (fb : List String) :
    ((fullCalls w envs pkgs buildO fb).filterMap Effect.writeOf).getLast? =
      some (bundleRoot w pkgs buildO ++ "/Versions/A/Modules/module.modulemap",
        osxModuleMapTmpl (bindTitle w pkgs) (headerFilesOf (bindTitle w pkgs) fb)) := by
  simp only [fullCalls, layoutCalls, List.filterMap_cons, List.filterMap_append,
    Effect.writeOf, generateCalls_writeOf, buildCalls_writeOf, List.filterMap_nil,
    List.nil_append, List.append_nil]
  rw [← List.append_assoc, List.getLast?_concat]

/-! ## The rendered text, line by line -/

theorem joinLines_append_cons (a : List String) (x : String) (b : List String) :
    joinLines (a ++ x :: b) = String.join (a.map fun l => l ++ "\n") ++ joinLines (x :: b) := by
  induction a with
  | nil =>
    apply String.ext
    simp [String.data_join]
  | cons y a ih =>
    have h : joinLines (y :: (a ++ x :: b)) = y ++ "\n" ++ joinLines (a ++ x :: b) := by
      cases a <;> rfl
    rw [List.cons_append, h, ih]
    apply String.ext
    simp [String.data_join]

theorem osxBindHeaderTmpl_lines (pkgs : List BuildPackage) (title : String)
    (bases : List String) :
    osxBindHeaderTmpl pkgs title bases = joinLines (osxBindHeaderLines pkgs title bases) := by
  unfold osxBindHeaderTmpl osxBindHeaderLines
  rw [show ["", "#endif", ""] = "" :: ["#endif", ""] from rfl, joinLines_append_cons]
  apply String.ext
  simp [String.data_join, joinLines, Function.comp_def]

theorem isIncludeLine_comment (x : String) : isIncludeLine ("// " ++ x) = false := by
  simp [isIncludeLine, String.data_append, List.isPrefixOf]

theorem isIncludeLine_include (x : String) : isIncludeLine ("#include \"" ++ x) = true := by
  simp [isIncludeLine, String.data_append, List.isPrefixOf]

theorem isIncludeLine_ifndef (x : String) : isIncludeLine ("#ifndef __" ++ x) = false := by
  simp [isIncludeLine, String.data_append, List.isPrefixOf]

theorem isIncludeLine_define (x : String) : isIncludeLine ("#define __" ++ x) = false := by
  simp [isIncludeLine, String.data_append, List.isPrefixOf]

theorem osxBindHeaderLines_includes (pkgs : List BuildPackage) (title : String)
    (bases : List String) :
    (osxBindHeaderLines pkgs title bases).filter isIncludeLine =
      bases.map fun b => "#include \"" ++ b ++ ".h\"" := by
  have h1 : (pkgs.map fun p => "// " ++ p.importPath).filter isIncludeLine = [] := by
    simp [List.filter_eq_nil_iff, isIncludeLine_comment]
  have h2 : (bases.map fun b => "#include \"" ++ b ++ ".h\"").filter isIncludeLine =
      bases.map fun b => "#include \"" ++ b ++ ".h\"" := by
    simp [List.filter_eq_self, String.append_assoc, isIncludeLine_include]
  have h3 : isIncludeLine ("#ifndef __" ++ title ++ "_H__") = false := by
    rw [String.append_assoc]
    exact isIncludeLine_ifndef _
  have h4 : isIncludeLine ("#define __" ++ title ++ "_H__") = false := by
    rw [String.append_assoc]
    exact isIncludeLine_define _
  have h5 : isIncludeLine "" = false := by decide
  have h6 : isIncludeLine "// Objective-C API for talking to the following Go packages" =
      false := by decide
  have h7 : isIncludeLine "//" = false := by decide
  have h8 : isIncludeLine "// File is generated by gomobile bind. Do not edit." = false := by
    decide
  have h9 : isIncludeLine "#endif" = false := by decide
  simp only [osxBindHeaderLines, List.filter_append, h1, h2, List.filter_cons, h3, h4, h5, h6,
    h7, h8, h9, List.filter_nil]
  simp

theorem osxModuleMapTmpl_lines (title : String) (headers : List String) :
    osxModuleMapTmpl title headers = joinLines (osxModuleMapLines title headers) := by
  unfold osxModuleMapTmpl osxModuleMapLines
  rw [show ["", "    export *", "\x7d"] = "" :: ["    export *", "\x7d"] from rfl,
    joinLines_append_cons]
  apply String.ext
  simp [String.data_join, joinLines, Function.comp_def]

theorem stripIndent_module (x : String) :
    stripIndent ("framework module \"" ++ x) = "framework module \"" ++ x := by
  apply String.ext
  simp [stripIndent, String.data_append, List.dropWhile]

theorem stripIndent_header (x : String) :
    stripIndent ("    header \"" ++ x) = "header \"" ++ x := by
  apply String.ext
  simp [stripIndent, String.data_append, List.dropWhile]

theorem ne_empty_module (x : String) : ("framework module \"" ++ x != "") = true := by
  simp [bne_iff_ne, String.ext_iff, String.data_append]

theorem ne_empty_header (x : String) : ("header \"" ++ x != "") = true := by
  simp [bne_iff_ne, String.ext_iff, String.data_append]

theorem osxModuleMapLines_significant (title : String) (headers : List String) :
    significantLines (osxModuleMapLines title headers) =
      ["framework module \"" ++ title ++ "\" \x7b"] ++
      (headers.map fun h => "header \"" ++ h ++ "\"") ++ ["export *", "\x7d"] := by
  have h1 : stripIndent "" = "" := by decide
  have h2 : stripIndent "    export *" = "export *" := by decide
  have h3 : stripIndent "\x7d" = "\x7d" := by decide
  have h4 : ("" != "") = false := by decide
  have h5 : ("export *" != "") = true := by decide
  have h6 : ("\x7d" != "") = true := by decide
  have h7 : ∀ h : String,
      stripIndent ("    header \"" ++ (h ++ "\"")) = "header \"" ++ (h ++ "\"") :=
    fun h => stripIndent_header _
  have h8 : (headers.map fun h => "header \"" ++ (h ++ "\"")).filter (fun l => l != "") =
      headers.map fun h => "header \"" ++ (h ++ "\"") := by
    rw [List.filter_eq_self]
    intro a ha
    obtain ⟨h, _, rfl⟩ := List.mem_map.mp ha
    exact ne_empty_header _
  simp only [significantLines, osxModuleMapLines, String.append_assoc, List.map_append,
    List.map_cons, List.map_nil, List.map_map, Function.comp_def, h7, stripIndent_module, h1,
    h2, h3, List.filter_append, h8, List.filter_cons, ne_empty_module, h4, h5, h6,
    List.filter_nil]
  simp

theorem joinLines_data (ls : List String) :
    (joinLines ls).data = [Char.ofNat 10].intercalate (ls.map String.data) := by
  induction ls with
  | nil => rfl
  | cons l ls ih =>
    cases ls with
    | nil => simp [joinLines, List.intercalate]
    | cons l2 ls =>
      rw [joinLines, String.data_append, String.data_append, ih]
      simp [List.intercalate]

theorem splitLines_joinLines (ls : List String) (hne : ls ≠ [])
    (h : ∀ l ∈ ls, OneLine l) : splitLines (joinLines ls) = ls := by
  unfold splitLines
  rw [joinLines_data, List.splitOn_intercalate]
  · simp [List.map_map, Function.comp_def]
  · intro l hl
    obtain ⟨s, hs, rfl⟩ := List.mem_map.mp hl
    exact h s hs
  · simpa using hne

theorem oneLine_append {a b : String} (ha : OneLine a) (hb : OneLine b) : OneLine (a ++ b) := by
  unfold OneLine at *
  rw [String.data_append, List.mem_append]
  exact fun h => h.elim ha hb

theorem osxModuleMapTmpl_splitLines (title : String) (headers : List String)
    (ht : OneLine title) (hh : ∀ h ∈ headers, OneLine h) :
    splitLines (osxModuleMapTmpl title headers) = osxModuleMapLines title headers := by
  rw [osxModuleMapTmpl_lines, splitLines_joinLines]
  · simp [osxModuleMapLines]
  · intro l hl
    simp only [osxModuleMapLines, List.mem_append, List.mem_cons, List.mem_singleton,
      List.mem_map, List.not_mem_nil, or_false] at hl
    rcases hl with (rfl | ⟨h, hh2, rfl⟩) | rfl | rfl | rfl
    · exact oneLine_append (oneLine_append (by decide) ht) (by decide)
    · exact oneLine_append (oneLine_append (by decide) (hh h hh2)) (by decide)
    · decide
    · decide
    · decide

theorem osxBindHeaderTmpl_splitLines (pkgs : List BuildPackage) (title : String)
    (bases : List String) (hp : ∀ p ∈ pkgs, OneLine p.importPath) (ht : OneLine title)
    (hb : ∀ b ∈ bases, OneLine b) :
    splitLines (osxBindHeaderTmpl pkgs title bases) = osxBindHeaderLines pkgs title bases := by
  rw [osxBindHeaderTmpl_lines, splitLines_joinLines]
  · simp [osxBindHeaderLines]
  · intro l hl
    simp only [osxBindHeaderLines, List.mem_append, List.mem_cons, List.mem_singleton,
      List.mem_map, List.not_mem_nil, or_false] at hl
    rcases hl with ((((rfl | rfl | rfl) | ⟨p, hp2, rfl⟩) | rfl | rfl | rfl | rfl | rfl) |
      ⟨b, hb2, rfl⟩) | rfl | rfl | rfl
    · decide
    · decide
    · decide
    · exact oneLine_append (by decide) (hp p hp2)
    · decide
    · decide
    · exact oneLine_append (oneLine_append (by decide) ht) (by decide)
    · exact oneLine_append (oneLine_append (by decide) ht) (by decide)
    · decide
    · exact oneLine_append (oneLine_append (by decide) (hb b hb2)) (by decide)
    · decide
    · decide
    · decide


/-! ## Runs that stop at a failed call -/

theorem stopsAtCall_pure (w : World) {α : Type} (a : α) : StopsAtCall w (pure a : M α) :=
  fun _ => Or.inl ⟨a, rfl⟩

theorem stopsAtCall_check (w : World) (ev : Effect) : StopsAtCall w (check w ev) := by
  intro tr
  rw [run_check]
  cases hc : w.errorOf tr ev with
  | some e => exact Or.inr ⟨tr, ev, e, rfl, hc⟩
  | none => exact Or.inl ⟨(), rfl⟩

theorem stopsAtCall_bind {w : World} {α β : Type} {m : M α} {f : α → M β}
    (hm : StopsAtCall w m) (hf : ∀ a, StopsAtCall w (f a)) : StopsAtCall w (m >>= f) := by
  intro tr
  have h := hm tr
  rw [run_bind]
  rcases hr : m.run tr with ⟨r, tr1⟩
  rw [hr] at h
  cases r with
  | ok a => exact hf a tr1
  | fail e =>
    rcases h with ⟨a, ha⟩ | h
    · simp at ha
    · exact Or.inr h
  | panic s =>
    rcases h with ⟨a, ha⟩ | h
    · simp at ha
    · exact Or.inr h

theorem archiveLoop_stopsAtCall (w : World) (name mainFile : String) (fileBases : List String)
    (envs : List (List String)) (args : List String) :
    StopsAtCall w (archiveLoop w name mainFile fileBases envs args) := by
  induction envs generalizing args with
  | nil => exact stopsAtCall_pure w args
  | cons env rest ih =>
    intro tr
    cases hc : w.errorOf tr (buildCall w name mainFile env) with
    | some e =>
      refine Or.inr ⟨tr, buildCall w name mainFile env, e, ?_, hc⟩
      simp only [archiveLoop, run_bind, run_goOSXBindArchive, hc, run_returnIf_some]
    | none =>
      have hr : (archiveLoop w name mainFile fileBases (env :: rest) args).run tr =
          (archiveLoop w name mainFile fileBases rest
            (args ++ ["-arch", w.archClang (w.getenv env "GOARCH"),
              archiveOf w name env])).run (tr ++ [buildCall w name mainFile env]) := by
        simp only [archiveLoop, run_bind, run_goOSXBindArchive, hc, run_returnIf_none]
      rw [hr]
      exact ih _ _

theorem copyLoop_stopsAtCall (w : World) (headers srcDir : String) (l : List String) (i : Nat)
    (headerFiles : List String) :
    StopsAtCall w (copyLoop w headers srcDir i l headerFiles) := by
  induction l generalizing i headerFiles with
  | nil => exact stopsAtCall_pure w headerFiles
  | cons b rest ih => exact stopsAtCall_bind (stopsAtCall_check w _) fun _ => ih _ _

theorem goOSXBindHeaders_stopsAtCall (w : World) (pkgs : List BuildPackage)
    (title srcDir headers : String) (fileBases : List String) :
    StopsAtCall w (goOSXBindHeaders w pkgs title srcDir headers fileBases) := by
  unfold goOSXBindHeaders
  by_cases h : fileBases.length = 1
  · simp only [if_pos h]
    exact stopsAtCall_bind (stopsAtCall_check w _) fun _ => stopsAtCall_pure w _
  · simp only [if_neg h]
    exact stopsAtCall_bind (copyLoop_stopsAtCall w _ _ _ _ _) fun _ =>
      stopsAtCall_bind (stopsAtCall_check w _) fun _ => stopsAtCall_pure w _

theorem goOSXBindLayout_stopsAtCall (w : World) (pkgs : List BuildPackage)
    (title buildO srcDir : String) (args fileBases : List String) :
    StopsAtCall w (goOSXBindLayout w pkgs title buildO srcDir args fileBases) := by
  unfold goOSXBindLayout
  refine stopsAtCall_bind (stopsAtCall_check w _) fun _ => ?_
  refine stopsAtCall_bind (stopsAtCall_check w _) fun _ => ?_
  refine stopsAtCall_bind (stopsAtCall_check w _) fun _ => ?_
  refine stopsAtCall_bind (stopsAtCall_check w _) fun _ => ?_
  refine stopsAtCall_bind (stopsAtCall_check w _) fun _ => ?_
  refine stopsAtCall_bind (stopsAtCall_check w _) fun _ => ?_
  refine stopsAtCall_bind (goOSXBindHeaders_stopsAtCall w _ _ _ _ _) fun _ => ?_
  refine stopsAtCall_bind (stopsAtCall_check w _) fun _ => ?_
  refine stopsAtCall_bind (stopsAtCall_check w _) fun _ => ?_
  refine stopsAtCall_bind (stopsAtCall_check w _) fun _ => ?_
  refine stopsAtCall_bind (stopsAtCall_check w _) fun _ => ?_
  exact stopsAtCall_check w _

theorem generateCalls_isGoBuild {binderPkgs : List TypesPackage} {srcDir mainFile : String}
    {e : Effect} (he : e ∈ generateCalls binderPkgs srcDir mainFile) : e.isGoBuild = false := by
  rcases mem_generateCalls he with ⟨_, rfl⟩ | rfl | ⟨_, rfl⟩ | rfl | rfl <;> rfl

/-- A run of `goOSXBindEnvs` that has called the compiler stops, when it does not reach its
end, at a call that failed: lines 29, 32 and 60 come before the first build. -/
theorem goOSXBindEnvs_stopsAtCall (w : World) (envs : List (List String))
    (pkgs : List BuildPackage) (buildO : String)
    (hreach : ∃ ev ∈ ((goOSXBindEnvs w envs pkgs buildO).run []).2, ev.isGoBuild = true) :
    (∃ u, ((goOSXBindEnvs w envs pkgs buildO).run []).1 = .ok u) ∨
    ∃ h ev e, ((goOSXBindEnvs w envs pkgs buildO).run []).2 = h ++ [ev] ∧
      w.errorOf h ev = some e := by
  revert hreach
  simp only [goOSXBindEnvs, run_bind, run_loadExportData, run_newBinder, List.nil_append]
  cases h1 : w.errorOf [] (.loadExportData pkgs w.darwinOsxEnv) with
  | some e => simp [h1, Effect.isGoBuild]
  | none =>
    cases h2 : w.errorOf [.loadExportData pkgs w.darwinOsxEnv]
        (.newBinder (w.typesPkgs [] pkgs w.darwinOsxEnv)) with
    | some e => simp [h1, h2, Effect.isGoBuild]
    | none =>
      rcases hbp : w.binderPkgs [.loadExportData pkgs w.darwinOsxEnv]
          (w.typesPkgs [] pkgs w.darwinOsxEnv) with _ | ⟨p, rest⟩
      · simp [h1, h2, hbp, Effect.isGoBuild]
      · by_cases hv : (buildO != "" && !hasSuffix buildO ".framework") = true
        · simp [h1, h2, hbp, hv, Effect.isGoBuild]
        · simp only [h1, h2, hbp, run_returnIf_none, hv, Bool.false_eq_true, if_false]
          rw [run_bind]
          obtain ⟨evs, hevs, hpre, -, -⟩ := goOSXBindGenerate_spec w
            (w.typesPkgs [] pkgs w.darwinOsxEnv) (p :: rest)
            (w.join [w.tmpdir, "src", "gomobile_bind"]) (w.join [w.tmpdir, "src/osxbin/main.go"])
            ([.loadExportData pkgs w.darwinOsxEnv] ++
              [.newBinder (w.typesPkgs [] pkgs w.darwinOsxEnv)])
          rcases hg : (goOSXBindGenerate w (w.typesPkgs [] pkgs w.darwinOsxEnv) (p :: rest)
            (w.join [w.tmpdir, "src", "gomobile_bind"])
            (w.join [w.tmpdir, "src/osxbin/main.go"])).run
              ([.loadExportData pkgs w.darwinOsxEnv] ++
                [.newBinder (w.typesPkgs [] pkgs w.darwinOsxEnv)]) with ⟨r, tr1⟩
          rw [hg] at hevs
          rw [hg]
          simp only at hevs
          have hno : ∀ ev ∈ tr1, ev.isGoBuild = false := by
            intro ev hev
            rw [hevs] at hev
            simp only [List.mem_append, List.mem_cons, List.not_mem_nil, or_false] at hev
            rcases hev with (rfl | rfl) | hev
            · rfl
            · rfl
            · exact generateCalls_isGoBuild (hpre.subset hev)
          cases r with
          | ok fb =>
            intro _
            exact stopsAtCall_bind (archiveLoop_stopsAtCall w _ _ _ _ _)
              (fun args => goOSXBindLayout_stopsAtCall w pkgs _ _ _ args fb) tr1
          | fail e =>
            rintro ⟨ev, hev, hb⟩
            rw [hno ev hev] at hb
            cases hb
          | panic s =>
            rintro ⟨ev, hev, hb⟩
            rw [hno ev hev] at hb
            cases hb

theorem prefix_of_not_mem {α : Type} {l p q : List α} {x : α}
    (h : l <+: p ++ x :: q) (hx : x ∉ l) : l <+: p := by
  obtain ⟨t, ht⟩ := h
  rcases List.append_eq_append_iff.mp ht with ⟨a, hp, _⟩ | ⟨c, hc, hq⟩
  · exact ⟨a, hp.symm⟩
  · cases c with
    | nil =>
      simp only [List.append_nil] at hc
      rw [hc]
    | cons y c =>
      simp only [List.cons_append, List.cons.injEq] at hq
      exact absurd (by rw [hc, hq.1]; simp) hx

/-- A run that has called the compiler and whose last call is neither a build nor one of the
five calls of lines 86-101 has called the merge tool. -/
theorem fullCalls_reaches_lipo (w : World) (envs : List (List String))
    (pkgs : List BuildPackage) (buildO : String) (fb : List String) (h : List Effect)
    (ev : Effect) (hp : h ++ [ev] <+: fullCalls w envs pkgs buildO fb)
    (hreach : ∃ g ∈ h ++ [ev], g.isGoBuild = true) (hev : ev.isGoBuild = false)
    (hskel : ev ∉ [Effect.removeAll (bundleRoot w pkgs buildO),
      .mkdir (bundleRoot w pkgs buildO ++ "/Versions/A/Headers"),
      .symlink "A" (bundleRoot w pkgs buildO ++ "/Versions/Current"),
      .symlink "Versions/Current/Headers" (bundleRoot w pkgs buildO ++ "/Headers"),
      .symlink ("Versions/Current/" ++ bindTitle w pkgs)
        (bundleRoot w pkgs buildO ++ "/" ++ bindTitle w pkgs)]) :
    Effect.runCmd (lipoArgs w (bindName w pkgs) envs (bundleRoot w pkgs buildO)
      (bindTitle w pkgs)) ∈ h ++ [ev] := by
  by_contra hR
  have hsplit : fullCalls w envs pkgs buildO fb =
      ((Effect.loadExportData pkgs w.darwinOsxEnv :: .newBinder (loadedPkgs w pkgs) ::
          generateCalls (boundPkgs w pkgs) (bindSrcDir w) (bindMainFile w)) ++
        ((envs.map fun env => buildCall w (bindName w pkgs) (bindMainFile w) env) ++
          [Effect.removeAll (bundleRoot w pkgs buildO),
            .mkdir (bundleRoot w pkgs buildO ++ "/Versions/A/Headers"),
            .symlink "A" (bundleRoot w pkgs buildO ++ "/Versions/Current"),
            .symlink "Versions/Current/Headers" (bundleRoot w pkgs buildO ++ "/Headers"),
            .symlink ("Versions/Current/" ++ bindTitle w pkgs)
              (bundleRoot w pkgs buildO ++ "/" ++ bindTitle w pkgs)])) ++
      Effect.runCmd (lipoArgs w (bindName w pkgs) envs (bundleRoot w pkgs buildO)
        (bindTitle w pkgs)) ::
      (headerCalls w pkgs (bindTitle w pkgs) (bindSrcDir w)
          (bundleRoot w pkgs buildO ++ "/Versions/A/Headers") fb ++
        [.mkdir (bundleRoot w pkgs buildO ++ "/Versions/A/Resources"),
          .symlink "Versions/Current/Resources" (bundleRoot w pkgs buildO ++ "/Resources"),
          .ioutilWriteFile (bundleRoot w pkgs buildO ++ "/Resources/Info.plist")
            osxBindInfoPlist 0o666,
          .writeFile (bundleRoot w pkgs buildO ++ "/Versions/A/Modules/module.modulemap")
            (osxModuleMapTmpl (bindTitle w pkgs) (headerFilesOf (bindTitle w pkgs) fb)),
          .symlink "Versions/Current/Modules" (bundleRoot w pkgs buildO ++ "/Modules")]) := by
    simp [fullCalls, layoutCalls, lipoArgs]
  rw [hsplit] at hp
  have h1 := prefix_of_not_mem hp hR
  have hnot : ev ∉ (envs.map fun env => buildCall w (bindName w pkgs) (bindMainFile w) env) ++
      [Effect.removeAll (bundleRoot w pkgs buildO),
        .mkdir (bundleRoot w pkgs buildO ++ "/Versions/A/Headers"),
        .symlink "A" (bundleRoot w pkgs buildO ++ "/Versions/Current"),
        .symlink "Versions/Current/Headers" (bundleRoot w pkgs buildO ++ "/Headers"),
        .symlink ("Versions/Current/" ++ bindTitle w pkgs)
          (bundleRoot w pkgs buildO ++ "/" ++ bindTitle w pkgs)] := by
    intro hmem
    rcases List.mem_append.mp hmem with hb | hs
    · obtain ⟨env, _, rfl⟩ := List.mem_map.mp hb
      cases hev
    · exact hskel hs
  have h2 := prefix_of_last_not_mem h1 hnot
  obtain ⟨g, hg, hgb⟩ := hreach
  have hgP := h2.subset hg
  simp only [List.mem_cons] at hgP
  rcases hgP with rfl | rfl | hgen
  · cases hgb
  · cases hgb
  · rw [generateCalls_isGoBuild hgen] at hgb
    cases hgb

/-! ## Sample runs -/

/-- The run of `goOSXBind` on the package `mypkg` in `okWorld` succeeds. -/
theorem okWorld_run :
    (goOSXBind okWorld [⟨"mypkg"⟩] "").run [] =
      (.ok (), ((goOSXBind okWorld [⟨"mypkg"⟩] "").run []).2) :=
  Prod.ext (by decide) rfl

/-- The run of `goOSXBindEnvs` on two architectures in `okWorld` succeeds. -/
theorem okWorld_run_twoArchs :
    (goOSXBindEnvs okWorld twoArchs [⟨"mypkg"⟩] "").run [] =
      (.ok (), ((goOSXBindEnvs okWorld twoArchs [⟨"mypkg"⟩] "").run []).2) :=
  Prod.ext (by decide) rfl

/-! ## C1: an output path without the `.framework` suffix -/

/-- C1, counterexample: with the output path `Foo`, a package list for which
`loadExportData` fails makes `goOSXBind` return the error of `loadExportData`, not the error
`static framework name "Foo" missing .framework suffix`: the suffix is tested on line 32,
after lines 19-27. -/
theorem goOSXBind_suffix_error_not_first :
    ("Foo" ≠ "" ∧ hasSuffix "Foo" ".framework" = false) ∧
    (goOSXBind loadFailsWorld [⟨"mypkg"⟩] "Foo").run [] =
      (.fail "cannot load export data",
        [.loadExportData [⟨"mypkg"⟩] ["GOOS=darwin", "GOARCH=amd64", "CGO_ENABLED=1"]]) ∧
    ((goOSXBind loadFailsWorld [⟨"mypkg"⟩] "Foo").run []).1 ≠
      .fail ("static framework name " ++ loadFailsWorld.quote "Foo" ++
        " missing .framework suffix") := by
  decide

/-- C1, amended: for every package list and every non-empty output path `buildO` that does
not end in `.framework`, the only calls `goOSXBind` makes are `loadExportData` and
`newBinder` (no `GenGo`, `GenObjc`, `writeFile`, `goBuild`, `removeAll`, `mkdir`, `symlink`,
`copyFile`, no merge tool); and when these two succeed and at least one package is bound, it
returns the error `static framework name <buildO quoted> missing .framework suffix`. -/
theorem goOSXBind_missing_suffix (w : World) (pkgs : List BuildPackage) (buildO : String)
    (hne : buildO ≠ "") (hsuf : hasSuffix buildO ".framework" = false) :
    (∀ e ∈ ((goOSXBind w pkgs buildO).run []).2,
      e = .loadExportData pkgs w.darwinOsxEnv ∨ e = .newBinder (loadedPkgs w pkgs)) ∧
    (w.errorOf [] (.loadExportData pkgs w.darwinOsxEnv) = none →
      w.errorOf [.loadExportData pkgs w.darwinOsxEnv] (.newBinder (loadedPkgs w pkgs)) = none →
      boundPkgs w pkgs ≠ [] →
      (goOSXBind w pkgs buildO).run [] =
        (.fail ("static framework name " ++ w.quote buildO ++ " missing .framework suffix"),
          [.loadExportData pkgs w.darwinOsxEnv, .newBinder (loadedPkgs w pkgs)])) := by
  simp only [goOSXBind, goOSXBindEnvs, run_bind, run_loadExportData, run_newBinder, boundPkgs,
    loadedPkgs, List.nil_append]
  cases h1 : w.errorOf [] (.loadExportData pkgs w.darwinOsxEnv) with
  | some e => simp [h1]
  | none =>
    cases h2 : w.errorOf [.loadExportData pkgs w.darwinOsxEnv]
        (.newBinder (w.typesPkgs [] pkgs w.darwinOsxEnv)) with
    | some e => simp [h1, h2]
    | none =>
      rcases hbp : w.binderPkgs [.loadExportData pkgs w.darwinOsxEnv]
          (w.typesPkgs [] pkgs w.darwinOsxEnv) with _ | ⟨p, rest⟩
      · simp [h1, h2, hbp]
      · simp [h1, h2, hbp, hne, hsuf]

/-- C1, amended, on the output path `Foo` and the package `mypkg`. -/
theorem goOSXBind_missing_suffix_witness :
    ("Foo" ≠ "" ∧ hasSuffix "Foo" ".framework" = false) ∧
    (goOSXBind okWorld [⟨"mypkg"⟩] "Foo").run [] =
      (.fail "static framework name \"Foo\" missing .framework suffix",
        [.loadExportData [⟨"mypkg"⟩] ["GOOS=darwin", "GOARCH=amd64", "CGO_ENABLED=1"],
          .newBinder [⟨"mypkg", "mypkg"⟩]]) :=
  ⟨by decide,
    (goOSXBind_missing_suffix okWorld [⟨"mypkg"⟩] "Foo" (by decide) (by decide)).2 rfl rfl
      (by decide)⟩

/-! ## C2: a single bound package -/

/-- C2, counterexample: the successful run on the single package `mypkg` copies two headers,
`GoMypkg.h` and `GoUniverse.h`, and renders the module map from three header files: the
module map of the single header `Mypkg.h` is not written. -/
theorem goOSXBind_one_package_three_headers :
    ((goOSXBind okWorld [⟨"mypkg"⟩] "").run []).1 = .ok () ∧
    ((goOSXBind okWorld [⟨"mypkg"⟩] "").run []).2.filterMap Effect.copyOf =
      [("Mypkg.framework/Versions/A/Headers/GoMypkg.h",
          "/tmp/gomobile-work/src/gomobile_bind/GoMypkg.h"),
        ("Mypkg.framework/Versions/A/Headers/GoUniverse.h",
          "/tmp/gomobile-work/src/gomobile_bind/GoUniverse.h")] ∧
    Effect.writeFile "Mypkg.framework/Versions/A/Modules/module.modulemap"
      (osxModuleMapTmpl "Mypkg" ["GoMypkg.h", "GoUniverse.h", "Mypkg.h"]) ∈
        ((goOSXBind okWorld [⟨"mypkg"⟩] "").run []).2 ∧
    Effect.writeFile "Mypkg.framework/Versions/A/Modules/module.modulemap"
      (osxModuleMapTmpl "Mypkg" ["Mypkg.h"]) ∉
        ((goOSXBind okWorld [⟨"mypkg"⟩] "").run []).2 ∧
    significantLines (osxModuleMapLines "Mypkg" ["GoMypkg.h", "GoUniverse.h", "Mypkg.h"]) =
      ["framework module \"Mypkg\" \x7b", "header \"GoMypkg.h\"", "header \"GoUniverse.h\"",
        "header \"Mypkg.h\"", "export *", "\x7d"] := by
  decide

/-- C2, amended: in a successful run with exactly one bound package, `GenObjc` is asked for
two base names, `b` for the package and `u` for the error type; the headers copied are
`b.h` and `u.h`, the header `<title>.h` is the umbrella header written from the template,
the final header file list is `[b.h, u.h, <title>.h]`, and the module map rendered from it
has three `header` lines, the last one `header "<title>.h"`. -/
theorem goOSXBind_one_package (w : World) (pkgs : List BuildPackage)
    (buildO root title b u : String) (p : TypesPackage) (tr : List Effect)
    (hroot : root = bundleRoot w pkgs buildO) (htitle : title = bindTitle w pkgs)
    (hl : loadedPkgs w pkgs = [p]) (hb : boundPkgs w pkgs = [p])
    (hbase : b = w.objcBase
      [.loadExportData pkgs w.darwinOsxEnv, .newBinder [p],
        .genGo (some p) [p] (bindSrcDir w), .genGo none [p] (bindSrcDir w),
        .writeFile (bindMainFile w) osxBindFile] (some p) [p] (bindSrcDir w))
    (hu : u = w.objcBase
      [.loadExportData pkgs w.darwinOsxEnv, .newBinder [p],
        .genGo (some p) [p] (bindSrcDir w), .genGo none [p] (bindSrcDir w),
        .writeFile (bindMainFile w) osxBindFile,
        .genObjc (some p) [p] (bindSrcDir w)] none [p] (bindSrcDir w))
    (hrun : (goOSXBind w pkgs buildO).run [] = (.ok (), tr)) :
    tr.filterMap Effect.copyOf =
      [(root ++ "/Versions/A/Headers" ++ "/" ++ b ++ ".h", bindSrcDir w ++ "/" ++ b ++ ".h"),
        (root ++ "/Versions/A/Headers" ++ "/" ++ u ++ ".h", bindSrcDir w ++ "/" ++ u ++ ".h")] ∧
    tr.filterMap Effect.writeOf =
      [(bindMainFile w, osxBindFile),
        (root ++ "/Versions/A/Headers" ++ "/" ++ title ++ ".h",
          osxBindHeaderTmpl pkgs title [b, u]),
        (root ++ "/Versions/A/Modules/module.modulemap",
          osxModuleMapTmpl title [b ++ ".h", u ++ ".h", title ++ ".h"])] ∧
    significantLines (osxModuleMapLines title [b ++ ".h", u ++ ".h", title ++ ".h"]) =
      ["framework module \"" ++ title ++ "\" \x7b", "header \"" ++ (b ++ ".h") ++ "\"",
        "header \"" ++ (u ++ ".h") ++ "\"", "header \"" ++ (title ++ ".h") ++ "\"",
        "export *", "\x7d"] := by
  obtain ⟨fb, _, htr, _, _, hgen, _⟩ := goOSXBindEnvs_ok w [w.darwinOsxEnv] pkgs buildO tr hrun
  rw [hl, hb] at hgen
  have hfb := goOSXBindGenerate_single w p _ _ _ fb hgen
  simp only [List.cons_append, List.nil_append] at hfb
  rw [← hbase, ← hu] at hfb
  subst hroot htitle hfb
  rw [htr]
  refine ⟨?_, ?_, ?_⟩
  · simp [fullCalls, generateCalls, layoutCalls, headerCalls, hb, hl, buildCall, Effect.copyOf]
  · simp [fullCalls, generateCalls, layoutCalls, headerCalls, headerFilesOf, hb, hl, buildCall,
      Effect.writeOf]
  · rw [osxModuleMapLines_significant]
    rfl

/-- C2, amended, on the package `mypkg`. -/
theorem goOSXBind_one_package_witness :
    ((goOSXBind okWorld [⟨"mypkg"⟩] "").run []).2.filterMap Effect.writeOf =
      [("/tmp/gomobile-work/src/osxbin/main.go", osxBindFile),
        ("Mypkg.framework/Versions/A/Headers/Mypkg.h",
          osxBindHeaderTmpl [⟨"mypkg"⟩] "Mypkg" ["GoMypkg", "GoUniverse"]),
        ("Mypkg.framework/Versions/A/Modules/module.modulemap",
          osxModuleMapTmpl "Mypkg" ["GoMypkg.h", "GoUniverse.h", "Mypkg.h"])] :=
  (goOSXBind_one_package okWorld [⟨"mypkg"⟩] "" "Mypkg.framework" "Mypkg" "GoMypkg"
    "GoUniverse" ⟨"mypkg", "mypkg"⟩ _ rfl rfl rfl rfl rfl rfl okWorld_run).2.1

/-! ## C3: several headers and the umbrella header -/

/-- C3: for every list of header base names `[b1..bN]` with `N > 1` and every title, the
placement of the headers in `goOSXBind` copies `srcDir/bi.h` to `<Headers>/bi.h` for
`i = 1..N` in that order, then writes the umbrella header `<Headers>/<title>.h`, and yields
the final header file list `[b1.h, ..., bN.h, <title>.h]`, of `N+1` entries: it does so when
no copy and no write fails, and every run of it that succeeds has done so.  The text of the
umbrella header is the lines `osxBindHeaderLines` joined by line feeds, and those of them
that are `#include` lines are `#include "b1.h"`, ..., `#include "bN.h"`, in that order; when
no name holds a line feed, they are the lines of the text. -/
theorem goOSXBindHeaders_umbrella (w : World) (pkgs : List BuildPackage)
    (title srcDir headers : String) (fileBases : List String) (tr : List Effect)
    (hN : 1 < fileBases.length) :
    ((∀ h dst src, w.errorOf h (.copyFile dst src) = none) →
      (∀ h filename content, w.errorOf h (.writeFile filename content) = none) →
      (goOSXBindHeaders w pkgs title srcDir headers fileBases).run tr =
        (.ok ((fileBases.map fun b => b ++ ".h") ++ [title ++ ".h"]),
          tr ++
            (fileBases.map fun b =>
              Effect.copyFile (headers ++ "/" ++ b ++ ".h") (srcDir ++ "/" ++ b ++ ".h")) ++
            [.writeFile (headers ++ "/" ++ title ++ ".h")
              (osxBindHeaderTmpl pkgs title fileBases)])) ∧
    (∀ headerFiles tr2,
      (goOSXBindHeaders w pkgs title srcDir headers fileBases).run tr = (.ok headerFiles, tr2) →
      tr2 = tr ++
        (fileBases.map fun b =>
          Effect.copyFile (headers ++ "/" ++ b ++ ".h") (srcDir ++ "/" ++ b ++ ".h")) ++
        [.writeFile (headers ++ "/" ++ title ++ ".h")
          (osxBindHeaderTmpl pkgs title fileBases)] ∧
      headerFiles = (fileBases.map fun b => b ++ ".h") ++ [title ++ ".h"] ∧
      headerFiles.length = fileBases.length + 1) ∧
    osxBindHeaderTmpl pkgs title fileBases =
      joinLines (osxBindHeaderLines pkgs title fileBases) ∧
    (osxBindHeaderLines pkgs title fileBases).filter isIncludeLine =
      (fileBases.map fun b => "#include \"" ++ b ++ ".h\"") ∧
    ((∀ p ∈ pkgs, OneLine p.importPath) → OneLine title → (∀ b ∈ fileBases, OneLine b) →
      (splitLines (osxBindHeaderTmpl pkgs title fileBases)).filter isIncludeLine =
        fileBases.map fun b => "#include \"" ++ b ++ ".h\"") := by
  have hne : ¬ fileBases.length = 1 := by omega
  refine ⟨?_, ?_, osxBindHeaderTmpl_lines _ _ _, osxBindHeaderLines_includes _ _ _,
    fun hp ht hb => by
      rw [osxBindHeaderTmpl_splitLines _ _ _ hp ht hb]
      exact osxBindHeaderLines_includes _ _ _⟩
  · intro hcopy hwrite
    have hc := copyLoop_run w headers srcDir fileBases [] (List.replicate fileBases.length "")
      tr (by simp) hcopy
    simp only [List.length_nil, List.nil_append] at hc
    simp only [goOSXBindHeaders, if_neg hne, run_bind, hc, run_check, hwrite]
    simp
  · intro headerFiles tr2 hrun
    obtain ⟨evs, h2, _, hfin, _⟩ :=
      goOSXBindHeaders_spec w pkgs title srcDir headers fileBases tr
    rw [hrun] at h2 hfin
    obtain ⟨rfl, rfl⟩ := hfin headerFiles rfl
    simp only [headerCalls, if_neg hne] at h2
    exact ⟨by simpa using h2, by simp [headerFilesOf, hne], by simp [headerFilesOf, hne]⟩

/-- C3 on three base names: three `#include` lines and four header files. -/
theorem goOSXBindHeaders_umbrella_witness :
    1 < ["GoMypkg", "GoOther", "GoUniverse"].length ∧
    ((["GoMypkg", "GoOther", "GoUniverse"].map fun b => b ++ ".h") ++
      ["Mypkg" ++ ".h"]).length = ["GoMypkg", "GoOther", "GoUniverse"].length + 1 ∧
    (splitLines (osxBindHeaderTmpl [] "Mypkg" ["GoMypkg", "GoOther", "GoUniverse"])).filter
        isIncludeLine =
      ["#include \"GoMypkg.h\"", "#include \"GoOther.h\"", "#include \"GoUniverse.h\""] :=
  have h := goOSXBindHeaders_umbrella okWorld [] "Mypkg" "src" "Headers"
    ["GoMypkg", "GoOther", "GoUniverse"] [] (by decide)
  ⟨by decide, (h.2.1 _ _ (h.1 (fun _ _ _ => rfl) (fun _ _ _ => rfl))).2.2,
    h.2.2.2.2 (by decide) (by decide) (by decide)⟩

/-! ## C4: the module map -/

/-- C4: for every title and every list of header file names, the text `osxModuleMapTmpl`
renders is the lines `osxModuleMapLines` joined by line feeds, which, indentation and blank
lines ignored, are `framework module "<title>" {`, one line `header "<h>"` per name in the
given order, `export *` and `}` (when no name holds a line feed, they are the lines of the
text); and in every successful run of `goOSXBind` the list the module map is rendered from is
the list the placement of the headers yielded. -/
theorem osxModuleMapTmpl_headers (w : World) (pkgs : List BuildPackage)
    (buildO title : String) (headers : List String) :
    osxModuleMapTmpl title headers = joinLines (osxModuleMapLines title headers) ∧
    significantLines (osxModuleMapLines title headers) =
      ["framework module \"" ++ title ++ "\" \x7b"] ++
      (headers.map fun h => "header \"" ++ h ++ "\"") ++ ["export *", "\x7d"] ∧
    (OneLine title → (∀ h ∈ headers, OneLine h) →
      significantLines (splitLines (osxModuleMapTmpl title headers)) =
        ["framework module \"" ++ title ++ "\" \x7b"] ++
        (headers.map fun h => "header \"" ++ h ++ "\"") ++ ["export *", "\x7d"]) ∧
    ∀ tr, (goOSXBind w pkgs buildO).run [] = (.ok (), tr) →
      ∃ fileBases headerFiles trH,
        ((goOSXBindGenerate w (loadedPkgs w pkgs) (boundPkgs w pkgs) (bindSrcDir w)
          (bindMainFile w)).run
            [.loadExportData pkgs w.darwinOsxEnv, .newBinder (loadedPkgs w pkgs)]).1 =
          .ok fileBases ∧
        trH <+: tr ∧
        ((goOSXBindHeaders w pkgs (bindTitle w pkgs) (bindSrcDir w)
          (bundleRoot w pkgs buildO ++ "/Versions/A/Headers") fileBases).run trH).1 =
          .ok headerFiles ∧
        (tr.filterMap Effect.writeOf).getLast? =
          some (bundleRoot w pkgs buildO ++ "/Versions/A/Modules/module.modulemap",
            osxModuleMapTmpl (bindTitle w pkgs) headerFiles) := by
  refine ⟨osxModuleMapTmpl_lines _ _, osxModuleMapLines_significant _ _,
    fun ht hh => by
      rw [osxModuleMapTmpl_splitLines _ _ ht hh]
      exact osxModuleMapLines_significant _ _, ?_⟩
  intro tr hrun
  obtain ⟨fb, _, htr, _, _, hgen, trH, hpre, hhdr⟩ :=
    goOSXBindEnvs_ok w [w.darwinOsxEnv] pkgs buildO tr hrun
  exact ⟨fb, _, trH, hgen, hpre, hhdr, htr ▸ fullCalls_last_write w _ pkgs buildO fb⟩

/-- C4 on the package `mypkg`. -/
theorem osxModuleMapTmpl_headers_witness :
    ∃ fileBases headerFiles trH,
      ((goOSXBindGenerate okWorld [⟨"mypkg", "mypkg"⟩] [⟨"mypkg", "mypkg"⟩]
        "/tmp/gomobile-work/src/gomobile_bind" "/tmp/gomobile-work/src/osxbin/main.go").run
          [.loadExportData [⟨"mypkg"⟩] okWorld.darwinOsxEnv,
            .newBinder [⟨"mypkg", "mypkg"⟩]]).1 = .ok fileBases ∧
      trH <+: ((goOSXBind okWorld [⟨"mypkg"⟩] "").run []).2 ∧
      ((goOSXBindHeaders okWorld [⟨"mypkg"⟩] "Mypkg" "/tmp/gomobile-work/src/gomobile_bind"
        "Mypkg.framework/Versions/A/Headers" fileBases).run trH).1 = .ok headerFiles ∧
      (((goOSXBind okWorld [⟨"mypkg"⟩] "").run []).2.filterMap Effect.writeOf).getLast? =
        some ("Mypkg.framework/Versions/A/Modules/module.modulemap",
          osxModuleMapTmpl "Mypkg" headerFiles) :=
  (osxModuleMapTmpl_headers okWorld [⟨"mypkg"⟩] "" "Mypkg" ["Mypkg.h"]).2.2.2 _ okWorld_run

/-! ## C5: the arguments of the merge tool -/

/-- C5, counterexample: the build of the single architecture succeeds, `removeAll` then
fails, and the merge tool is never invoked. -/
theorem goOSXBind_lipo_not_reached :
    buildCall removeAllFailsWorld "mypkg" "/tmp/gomobile-work/src/osxbin/main.go"
      removeAllFailsWorld.darwinOsxEnv ∈
        ((goOSXBind removeAllFailsWorld [⟨"mypkg"⟩] "").run []).2 ∧
    (∀ h src env args, removeAllFailsWorld.errorOf h (.goBuild src env args) = none) ∧
    ((goOSXBind removeAllFailsWorld [⟨"mypkg"⟩] "").run []).1 = .fail "permission denied" ∧
    ((goOSXBind removeAllFailsWorld [⟨"mypkg"⟩] "").run []).2.filter Effect.isRunCmd = [] :=
  ⟨by decide, fun _ _ _ _ => rfl, by decide, by decide⟩

/-- C5, amended: for every list of architecture environments `[e1..en]`, when the run
reaches the loop of line 76 (it calls the compiler), no build fails, and none of the five
calls of lines 86-101 (`removeAll`, `mkdir` of the headers directory, three links), which
come between the builds and the merge tool, fails, the merge tool is invoked exactly once,
whether it then succeeds or not, and its arguments are `xcrun lipo -create`, then for each
`ei` in order `-arch`, `archClang(GOARCH of ei)` and the archive path `goOSXBindArchive`
returns for `ei`, then `-o` and `root/Versions/A/<title>`: `n` triples.  No run invokes it
more than once or with other arguments, and every run that succeeds invokes it. -/
theorem goOSXBind_lipo_args (w : World) (envs : List (List String))
    (pkgs : List BuildPackage) (buildO root title name : String)
    (hroot : root = bundleRoot w pkgs buildO) (htitle : title = bindTitle w pkgs)
    (hname : name = bindName w pkgs) :
    ((∃ ev ∈ ((goOSXBindEnvs w envs pkgs buildO).run []).2, ev.isGoBuild = true) →
      (∀ h ev rest, ((goOSXBindEnvs w envs pkgs buildO).run []).2 = h ++ ev :: rest →
        ev.isGoBuild = true → w.errorOf h ev = none) →
      (∀ h ev rest, ((goOSXBindEnvs w envs pkgs buildO).run []).2 = h ++ ev :: rest →
        ev ∈ [Effect.removeAll root, .mkdir (root ++ "/Versions/A/Headers"),
          .symlink "A" (root ++ "/Versions/Current"),
          .symlink "Versions/Current/Headers" (root ++ "/Headers"),
          .symlink ("Versions/Current/" ++ title) (root ++ "/" ++ title)] →
        w.errorOf h ev = none) →
      ((goOSXBindEnvs w envs pkgs buildO).run []).2.filter Effect.isRunCmd =
        [.runCmd (["xcrun", "lipo", "-create"] ++
          (envs.flatMap fun env =>
            ["-arch", w.archClang (w.getenv env "GOARCH"), archiveOf w name env]) ++
          ["-o", root ++ "/Versions/A/" ++ title])]) ∧
    (((goOSXBindEnvs w envs pkgs buildO).run []).2.filter Effect.isRunCmd = [] ∨
      ((goOSXBindEnvs w envs pkgs buildO).run []).2.filter Effect.isRunCmd =
        [.runCmd (["xcrun", "lipo", "-create"] ++
          (envs.flatMap fun env =>
            ["-arch", w.archClang (w.getenv env "GOARCH"), archiveOf w name env]) ++
          ["-o", root ++ "/Versions/A/" ++ title])]) ∧
    (((goOSXBindEnvs w envs pkgs buildO).run []).1 = .ok () →
      ((goOSXBindEnvs w envs pkgs buildO).run []).2.filter Effect.isRunCmd =
        [.runCmd (["xcrun", "lipo", "-create"] ++
          (envs.flatMap fun env =>
            ["-arch", w.archClang (w.getenv env "GOARCH"), archiveOf w name env]) ++
          ["-o", root ++ "/Versions/A/" ++ title])]) ∧
    (∀ env ∈ envs, ∀ tr0 fileBases,
      w.errorOf tr0 (buildCall w name (bindMainFile w) env) = none →
      ((goOSXBindArchive w name (bindMainFile w) env fileBases).run tr0).1 =
        .ok (archiveOf w name env, none)) ∧
    (envs.flatMap fun env =>
      ["-arch", w.archClang (w.getenv env "GOARCH"), archiveOf w name env]).length =
        3 * envs.length := by
  obtain ⟨fb, _, hp, hfin, _⟩ := goOSXBindEnvs_run w envs pkgs buildO
  subst hroot htitle hname
  have hfull := fullCalls_isRunCmd w envs pkgs buildO fb
  simp only [lipoArgs] at hfull
  have hmost : ((goOSXBindEnvs w envs pkgs buildO).run []).2.filter Effect.isRunCmd = [] ∨
      ((goOSXBindEnvs w envs pkgs buildO).run []).2.filter Effect.isRunCmd =
        [.runCmd (["xcrun", "lipo", "-create"] ++
          (envs.flatMap fun env =>
            ["-arch", w.archClang (w.getenv env "GOARCH"),
              archiveOf w (bindName w pkgs) env]) ++
          ["-o", bundleRoot w pkgs buildO ++ "/Versions/A/" ++ bindTitle w pkgs])] := by
    have := List.IsPrefix.filter Effect.isRunCmd hp
    rw [hfull, List.prefix_cons_iff] at this
    rcases this with h | ⟨t, h, ht⟩
    · exact Or.inl h
    · right
      rw [h, List.prefix_nil.mp ht]
  refine ⟨?_, hmost, ?_, ?_, ?_⟩
  · intro hreach hbuild hskel
    rcases goOSXBindEnvs_stopsAtCall w envs pkgs buildO hreach with ⟨u, hu⟩ | ⟨h, ev, e, htr, he⟩
    · rw [(hfin u hu).1, hfull]
    · have hev : ev.isGoBuild = false := by
        cases hb : ev.isGoBuild with
        | false => rfl
        | true =>
          have := hbuild h ev [] htr hb
          rw [he] at this
          cases this
      have hR := fullCalls_reaches_lipo w envs pkgs buildO fb h ev (htr ▸ hp) (htr ▸ hreach) hev
        (fun hm => by
          have := hskel h ev [] htr hm
          rw [he] at this
          cases this)
      rcases hmost with h0 | h1
      · have hmem : Effect.runCmd (lipoArgs w (bindName w pkgs) envs (bundleRoot w pkgs buildO)
            (bindTitle w pkgs)) ∈
              ((goOSXBindEnvs w envs pkgs buildO).run []).2.filter Effect.isRunCmd :=
          List.mem_filter.mpr ⟨htr ▸ hR, rfl⟩
        rw [h0] at hmem
        cases hmem
      · exact h1
  · intro hok
    rw [(hfin () hok).1, hfull]
  · intro env _ tr0 fileBases hb
    rw [run_goOSXBindArchive, hb]
  · exact lipo_triples_length _ _ (fun _ => rfl)

/-- C5, amended, on the package `mypkg`: in a run of `goOSXBind` in which the merge tool
fails it has been invoked once, with one `-arch` triple; and on two architectures, one
invocation with two `-arch` triples in the order of the environments. -/
theorem goOSXBind_lipo_args_witness :
    ((goOSXBind lipoFailsWorld [⟨"mypkg"⟩] "").run []).1 = .fail "exit status 1" ∧
    ((goOSXBind lipoFailsWorld [⟨"mypkg"⟩] "").run []).2.filter Effect.isRunCmd =
      [.runCmd ["xcrun", "lipo", "-create", "-arch", "x86_64",
        "/tmp/gomobile-work/mypkg-amd64.a", "-o", "Mypkg.framework/Versions/A/Mypkg"]] ∧
    ((goOSXBindEnvs okWorld twoArchs [⟨"mypkg"⟩] "").run []).1 = .ok () ∧
    ((goOSXBindEnvs okWorld twoArchs [⟨"mypkg"⟩] "").run []).2.filter Effect.isRunCmd =
      [.runCmd ["xcrun", "lipo", "-create", "-arch", "x86_64",
        "/tmp/gomobile-work/mypkg-amd64.a", "-arch", "i386", "/tmp/gomobile-work/mypkg-386.a",
        "-o", "Mypkg.framework/Versions/A/Mypkg"]] :=
  ⟨by decide,
    (goOSXBind_lipo_args lipoFailsWorld [lipoFailsWorld.darwinOsxEnv] [⟨"mypkg"⟩] ""
      "Mypkg.framework" "Mypkg" "mypkg" rfl rfl rfl).1
      ⟨buildCall lipoFailsWorld "mypkg" "/tmp/gomobile-work/src/osxbin/main.go"
        lipoFailsWorld.darwinOsxEnv, by decide, rfl⟩
      (fun _ ev _ _ hb => by cases ev <;> first | rfl | cases hb)
      (fun _ ev _ _ hm => by
        simp only [List.mem_cons, List.mem_singleton, List.not_mem_nil, or_false] at hm
        rcases hm with rfl | rfl | rfl | rfl | rfl <;> rfl),
    by decide,
    (goOSXBind_lipo_args okWorld twoArchs [⟨"mypkg"⟩] "" "Mypkg.framework" "Mypkg" "mypkg"
      rfl rfl rfl).2.2.1 (by decide)⟩

/-! ## C6: the links -/

/-- C6: in every successful run of `goOSXBind` with framework root `root` and title
`title`, the links created are, in this order, `root/Versions/Current -> A`,
`root/Headers -> Versions/Current/Headers`, `root/<title> -> Versions/Current/<title>`,
`root/Resources -> Versions/Current/Resources` and `root/Modules -> Versions/Current/Modules`,
and no other; the target of each of the four top-level links starts with `Versions/Current/`
and does not start with `Versions/A`. -/
theorem goOSXBind_symlinks (w : World) (pkgs : List BuildPackage)
    (buildO root title : String) (tr : List Effect)
    (hroot : root = bundleRoot w pkgs buildO) (htitle : title = bindTitle w pkgs)
    (hrun : (goOSXBind w pkgs buildO).run [] = (.ok (), tr)) :
    tr.filterMap Effect.symlinkOf =
      [("A", root ++ "/Versions/Current"),
        ("Versions/Current/Headers", root ++ "/Headers"),
        ("Versions/Current/" ++ title, root ++ "/" ++ title),
        ("Versions/Current/Resources", root ++ "/Resources"),
        ("Versions/Current/Modules", root ++ "/Modules")] ∧
    ∀ link ∈ (tr.filterMap Effect.symlinkOf).tail,
      "Versions/Current/".data <+: link.1.data ∧ ¬ "Versions/A".data <+: link.1.data := by
  obtain ⟨fb, _, htr, _⟩ := goOSXBindEnvs_ok w [w.darwinOsxEnv] pkgs buildO tr hrun
  subst hroot htitle
  have hlinks := fullCalls_symlinkOf w [w.darwinOsxEnv] pkgs buildO fb
  rw [← htr] at hlinks
  refine ⟨hlinks, ?_⟩
  have key : ∀ x : String, "Versions/Current/".data <+: x.data →
      ¬ "Versions/A".data <+: x.data := by
    intro x h1 h2
    rcases List.prefix_or_prefix_of_prefix h1 h2 with h | h
    · exact absurd (h.length_le) (by decide)
    · exact absurd h (by decide)
  have pre : ∀ x : String, "Versions/Current/".data <+: ("Versions/Current/" ++ x).data := by
    intro x
    rw [String.data_append]
    exact List.prefix_append _ _
  intro link hlink
  rw [hlinks] at hlink
  simp only [List.tail_cons, List.mem_cons, List.mem_singleton, List.not_mem_nil,
    or_false] at hlink
  rcases hlink with rfl | rfl | rfl | rfl
  · exact ⟨pre "Headers", key _ (pre "Headers")⟩
  · exact ⟨pre _, key _ (pre _)⟩
  · exact ⟨pre "Resources", key _ (pre "Resources")⟩
  · exact ⟨pre "Modules", key _ (pre "Modules")⟩

/-- C6 on the package `mypkg`. -/
theorem goOSXBind_symlinks_witness :
    ((goOSXBind okWorld [⟨"mypkg"⟩] "").run []).2.filterMap Effect.symlinkOf =
      [("A", "Mypkg.framework/Versions/Current"),
        ("Versions/Current/Headers", "Mypkg.framework/Headers"),
        ("Versions/Current/Mypkg", "Mypkg.framework/Mypkg"),
        ("Versions/Current/Resources", "Mypkg.framework/Resources"),
        ("Versions/Current/Modules", "Mypkg.framework/Modules")] :=
  (goOSXBind_symlinks okWorld [⟨"mypkg"⟩] "" "Mypkg.framework" "Mypkg" _ rfl rfl
    okWorld_run).1

/-! ## C7: a build that fails -/

/-- C7: if a call of the compiler made by a run fails with error `e` for the environment
`env`, then `goOSXBindArchive` returns `("", e)` there, `goOSXBind` returns the error
`darwin-<archClang(GOARCH of env)>: <e>`, and that call is the last one of the run: no later
architecture is built and the merge tool is not run; all the calls before it are loading,
generation into `tmpdir` and earlier builds, so no `removeAll`, `mkdir`, `symlink`, copy or
write touches the framework directory. -/
theorem goOSXBind_build_failure (w : World) (envs : List (List String))
    (pkgs : List BuildPackage) (buildO src : String) (env args : List String)
    (h rest : List Effect) (e : String)
    (htr : ((goOSXBindEnvs w envs pkgs buildO).run []).2 = h ++ .goBuild src env args :: rest)
    (herr : w.errorOf h (.goBuild src env args) = some e) :
    (∀ fileBases, (goOSXBindArchive w (bindName w pkgs) src env fileBases).run h =
      (.ok ("", some e), h ++ [.goBuild src env args])) ∧
    ((goOSXBindEnvs w envs pkgs buildO).run []).1 =
      .fail ("darwin-" ++ w.archClang (w.getenv env "GOARCH") ++ ": " ++ e) ∧
    rest = [] ∧
    ∀ x ∈ h, beforeLayout w x = true := by
  obtain ⟨fb, _, hp, _, hstop⟩ := goOSXBindEnvs_run w envs pkgs buildO
  obtain ⟨hrest, _, hfail⟩ := hstop h _ rest e htr herr
  subst hrest
  rw [htr] at hp
  have hsplit : fullCalls w envs pkgs buildO fb =
      (Effect.loadExportData pkgs w.darwinOsxEnv :: .newBinder (loadedPkgs w pkgs) ::
        (generateCalls (boundPkgs w pkgs) (bindSrcDir w) (bindMainFile w) ++
          envs.map fun env => buildCall w (bindName w pkgs) (bindMainFile w) env)) ++
      layoutCalls w pkgs (bindTitle w pkgs) (bundleRoot w pkgs buildO) (bindSrcDir w)
        (["xcrun", "lipo", "-create"] ++ envs.flatMap fun env =>
          ["-arch", w.archClang (w.getenv env "GOARCH"), archiveOf w (bindName w pkgs) env])
        fb := by
    simp [fullCalls]
  rw [hsplit] at hp
  have hpre := prefix_of_last_not_mem hp (fun hmem => by
    have := layoutCalls_isGoBuild _ _ _ _ _ _ _ _ hmem
    simp [Effect.isGoBuild] at this)
  have hev := (prepareCalls_beforeLayout w envs pkgs _
    (hpre.subset (by simp))).2 src env args rfl
  obtain ⟨rfl, rfl⟩ := hev
  refine ⟨?_, hfail _ _ _ rfl, rfl, ?_⟩
  · intro fileBases
    rw [run_goOSXBindArchive]
    simp only [buildCall] at herr ⊢
    rw [herr]
  · intro x hx
    exact (prepareCalls_beforeLayout w envs pkgs x (hpre.subset (by simp [hx]))).1

/-- C7 on two architectures, the compiler failing: the first build is the last call. -/
theorem goOSXBind_build_failure_witness :
    buildFailsWorld.errorOf
      [.loadExportData [⟨"mypkg"⟩] ["GOOS=darwin", "GOARCH=amd64", "CGO_ENABLED=1"],
        .newBinder [⟨"mypkg", "mypkg"⟩],
        .genGo (some ⟨"mypkg", "mypkg"⟩) [⟨"mypkg", "mypkg"⟩]
          "/tmp/gomobile-work/src/gomobile_bind",
        .genGo none [⟨"mypkg", "mypkg"⟩] "/tmp/gomobile-work/src/gomobile_bind",
        .writeFile "/tmp/gomobile-work/src/osxbin/main.go" osxBindFile,
        .genObjc (some ⟨"mypkg", "mypkg"⟩) [⟨"mypkg", "mypkg"⟩]
          "/tmp/gomobile-work/src/gomobile_bind",
        .genObjc none [⟨"mypkg", "mypkg"⟩] "/tmp/gomobile-work/src/gomobile_bind",
        .genObjcSupport "/tmp/gomobile-work/src/gomobile_bind",
        .genGoSupport "/tmp/gomobile-work/src/gomobile_bind"]
      (.goBuild "/tmp/gomobile-work/src/osxbin/main.go" ["GOOS=darwin", "GOARCH=amd64"]
        ["-buildmode=c-archive", "-tags=macosx", "-o", "/tmp/gomobile-work/mypkg-amd64.a"]) =
      some "exit status 2" ∧
    ((goOSXBindEnvs buildFailsWorld twoArchs [⟨"mypkg"⟩] "").run []).1 =
      .fail "darwin-x86_64: exit status 2" :=
  ⟨rfl,
    (goOSXBind_build_failure buildFailsWorld twoArchs [⟨"mypkg"⟩] ""
      "/tmp/gomobile-work/src/osxbin/main.go" ["GOOS=darwin", "GOARCH=amd64"]
      ["-buildmode=c-archive", "-tags=macosx", "-o", "/tmp/gomobile-work/mypkg-amd64.a"]
      [.loadExportData [⟨"mypkg"⟩] ["GOOS=darwin", "GOARCH=amd64", "CGO_ENABLED=1"],
        .newBinder [⟨"mypkg", "mypkg"⟩],
        .genGo (some ⟨"mypkg", "mypkg"⟩) [⟨"mypkg", "mypkg"⟩]
          "/tmp/gomobile-work/src/gomobile_bind",
        .genGo none [⟨"mypkg", "mypkg"⟩] "/tmp/gomobile-work/src/gomobile_bind",
        .writeFile "/tmp/gomobile-work/src/osxbin/main.go" osxBindFile,
        .genObjc (some ⟨"mypkg", "mypkg"⟩) [⟨"mypkg", "mypkg"⟩]
          "/tmp/gomobile-work/src/gomobile_bind",
        .genObjc none [⟨"mypkg", "mypkg"⟩] "/tmp/gomobile-work/src/gomobile_bind",
        .genObjcSupport "/tmp/gomobile-work/src/gomobile_bind",
        .genGoSupport "/tmp/gomobile-work/src/gomobile_bind"]
      [] "exit status 2" (by decide) rfl).2.1⟩

/-! ## C8: the root of the framework directory -/

/-- C8: when no output path is given (`buildO` is empty) every call of `goOSXBind` that
touches the framework directory (`removeAll`, `mkdir`, the links, the output of the merge
tool, the headers, the module map, `Info.plist`) works in
`strings.Title(name of the first bound package) + ".framework"`; when `buildO` is not empty
and ends in `.framework`, every such call works in `buildO` itself. -/
theorem goOSXBind_bundle_root (w : World) (pkgs : List BuildPackage) (buildO : String) :
    (buildO = "" →
      ∀ e ∈ ((goOSXBind w pkgs buildO).run []).2,
        usesRoot w (w.title (bindName w pkgs) ++ ".framework") (w.title (bindName w pkgs)) e =
          true) ∧
    (buildO ≠ "" → hasSuffix buildO ".framework" = true →
      ∀ e ∈ ((goOSXBind w pkgs buildO).run []).2,
        usesRoot w buildO (w.title (bindName w pkgs)) e = true) := by
  obtain ⟨fb, _, hp, _⟩ := goOSXBindEnvs_run w [w.darwinOsxEnv] pkgs buildO
  constructor
  · intro h0 e he
    have := fullCalls_usesRoot w _ pkgs buildO fb e (hp.subset he)
    simpa [bundleRoot, h0, bindTitle] using this
  · intro h0 _ e he
    have := fullCalls_usesRoot w _ pkgs buildO fb e (hp.subset he)
    simpa [bundleRoot, h0, bindTitle] using this

/-- C8 on the package `mypkg`: without an output path the root is `Mypkg.framework`; the
output path `X.framework` is used as it is. -/
theorem goOSXBind_bundle_root_witness :
    (∀ e ∈ ((goOSXBind okWorld [⟨"mypkg"⟩] "").run []).2,
      usesRoot okWorld "Mypkg.framework" "Mypkg" e = true) ∧
    ("X.framework" ≠ "" ∧ hasSuffix "X.framework" ".framework" = true) ∧
    (∀ e ∈ ((goOSXBind okWorld [⟨"mypkg"⟩] "X.framework").run []).2,
      usesRoot okWorld "X.framework" "Mypkg" e = true) :=
  ⟨(goOSXBind_bundle_root okWorld [⟨"mypkg"⟩] "").1 rfl, by decide,
    (goOSXBind_bundle_root okWorld [⟨"mypkg"⟩] "X.framework").2 (by decide) (by decide)⟩

/-! ## C9: a single header -/

/-- C9, counterexample: with the single base name `GoUniverse`, the title `Mypkg` and the
prefix `Go`, the one copy reads `src/GoMypkg.h`, not `src/GoUniverse.h`. -/
theorem goOSXBindHeaders_single_source :
    (goOSXBindHeaders okWorld [] "Mypkg" "src" "Headers" ["GoUniverse"]).run [] =
      (.ok ["Mypkg.h"], [.copyFile "Headers/Mypkg.h" "src/GoMypkg.h"]) ∧
    "src/GoMypkg.h" ≠ "src" ++ "/" ++ "GoUniverse" ++ ".h" := by
  decide

/-- C9, amended: for every list of exactly one header base name `[b]` and every title,
`goOSXBind` places the headers with exactly one call, the copy of `srcDir/<bindPrefix><title>.h`
to `<Headers>/<title>.h`; when the copy succeeds the final header file list is
`[<title>.h]`, otherwise its error is returned; nothing is written, so no umbrella header is
made.  The file copied is `srcDir/b.h` when `b` is `<bindPrefix><title>`. -/
theorem goOSXBindHeaders_single (w : World) (pkgs : List BuildPackage)
    (title srcDir headers b : String) (tr : List Effect) :
    (goOSXBindHeaders w pkgs title srcDir headers [b]).run tr =
      (match w.errorOf tr (.copyFile (headers ++ "/" ++ title ++ ".h")
          (srcDir ++ "/" ++ w.bindPrefix ++ title ++ ".h")) with
        | none => .ok [title ++ ".h"]
        | some e => .fail e,
        tr ++ [.copyFile (headers ++ "/" ++ title ++ ".h")
          (srcDir ++ "/" ++ w.bindPrefix ++ title ++ ".h")]) ∧
    (b = w.bindPrefix ++ title →
      srcDir ++ "/" ++ w.bindPrefix ++ title ++ ".h" = srcDir ++ "/" ++ b ++ ".h") := by
  constructor
  · simp only [goOSXBindHeaders, List.length_singleton, if_true, run_bind, run_check]
    cases w.errorOf tr (.copyFile (headers ++ "/" ++ title ++ ".h")
      (srcDir ++ "/" ++ w.bindPrefix ++ title ++ ".h")) <;> rfl
  · rintro rfl
    simp only [String.append_assoc]

/-- C9, amended, on the base name `GoMypkg`, the title `Mypkg` and the prefix `Go`. -/
theorem goOSXBindHeaders_single_witness :
    "GoMypkg" = okWorld.bindPrefix ++ "Mypkg" ∧
    "src" ++ "/" ++ okWorld.bindPrefix ++ "Mypkg" ++ ".h" = "src" ++ "/" ++ "GoMypkg" ++ ".h" :=
  ⟨by decide, (goOSXBindHeaders_single okWorld [] "Mypkg" "src" "Headers" "GoMypkg" []).2
    (by decide)⟩

/-! ## C10: the order of the calls -/

set_option maxRecDepth 20000 in
/-- C10, counterexample: in the successful run on the package `mypkg`, `removeAll` (the
first call of the skeleton) comes before the merge tool, and `Info.plist` is written before
the module map. -/
theorem goOSXBind_skeleton_before_lipo :
    ((goOSXBind okWorld [⟨"mypkg"⟩] "").run []).1 = .ok () ∧
    ((goOSXBind okWorld [⟨"mypkg"⟩] "").run []).2.indexOf (.removeAll "Mypkg.framework") = 10 ∧
    ((goOSXBind okWorld [⟨"mypkg"⟩] "").run []).2.indexOf
      (.runCmd ["xcrun", "lipo", "-create", "-arch", "x86_64",
        "/tmp/gomobile-work/mypkg-amd64.a", "-o", "Mypkg.framework/Versions/A/Mypkg"]) = 15 ∧
    ((goOSXBind okWorld [⟨"mypkg"⟩] "").run []).2.indexOf
      (.ioutilWriteFile "Mypkg.framework/Resources/Info.plist" osxBindInfoPlist 0o666) = 21 ∧
    ((goOSXBind okWorld [⟨"mypkg"⟩] "").run []).2.indexOf
      (.writeFile "Mypkg.framework/Versions/A/Modules/module.modulemap"
        (osxModuleMapTmpl "Mypkg" ["GoMypkg.h", "GoUniverse.h", "Mypkg.h"])) = 22 :=
  ⟨rfl, rfl, rfl, rfl, rfl⟩

/-- C10, amended: in every successful run, for every list of architecture environments, the
calls are made in this order: loading and generation, the compiler once per architecture,
then the skeleton (`removeAll`, `mkdir` of the headers directory, three links), then the
merge tool, then the placement of the headers, then the resources (`mkdir`, link,
`Info.plist`), then the module map, then the link `Modules`. -/
theorem goOSXBind_call_order (w : World) (envs : List (List String))
    (pkgs : List BuildPackage) (buildO root title : String) (tr : List Effect)
    (hroot : root = bundleRoot w pkgs buildO) (htitle : title = bindTitle w pkgs)
    (hrun : (goOSXBindEnvs w envs pkgs buildO).run [] = (.ok (), tr)) :
    ∃ fileBases : List String, fileBases.length = (loadedPkgs w pkgs).length + 1 ∧
      tr =
        [.loadExportData pkgs w.darwinOsxEnv, .newBinder (loadedPkgs w pkgs)] ++
        generateCalls (boundPkgs w pkgs) (bindSrcDir w) (bindMainFile w) ++
        (envs.map fun env => buildCall w (bindName w pkgs) (bindMainFile w) env) ++
        [.removeAll root, .mkdir (root ++ "/Versions/A/Headers"),
          .symlink "A" (root ++ "/Versions/Current"),
          .symlink "Versions/Current/Headers" (root ++ "/Headers"),
          .symlink ("Versions/Current/" ++ title) (root ++ "/" ++ title)] ++
        [.runCmd (lipoArgs w (bindName w pkgs) envs root title)] ++
        headerCalls w pkgs title (bindSrcDir w) (root ++ "/Versions/A/Headers") fileBases ++
        [.mkdir (root ++ "/Versions/A/Resources"),
          .symlink "Versions/Current/Resources" (root ++ "/Resources"),
          .ioutilWriteFile (root ++ "/Resources/Info.plist") osxBindInfoPlist 0o666] ++
        [.writeFile (root ++ "/Versions/A/Modules/module.modulemap")
            (osxModuleMapTmpl title (headerFilesOf title fileBases)),
          .symlink "Versions/Current/Modules" (root ++ "/Modules")] := by
  obtain ⟨fb, hlen, htr, _⟩ := goOSXBindEnvs_ok w envs pkgs buildO tr hrun
  refine ⟨fb, hlen, ?_⟩
  subst hroot htitle
  rw [htr]
  simp [fullCalls, layoutCalls, lipoArgs]

/-- C10, amended, on two architectures. -/
theorem goOSXBind_call_order_witness :
    ∃ fileBases : List String, fileBases.length = 2 ∧
      ((goOSXBindEnvs okWorld twoArchs [⟨"mypkg"⟩] "").run []).2 =
        [.loadExportData [⟨"mypkg"⟩] okWorld.darwinOsxEnv, .newBinder [⟨"mypkg", "mypkg"⟩]] ++
        generateCalls [⟨"mypkg", "mypkg"⟩] (bindSrcDir okWorld) (bindMainFile okWorld) ++
        (twoArchs.map fun env => buildCall okWorld "mypkg" (bindMainFile okWorld) env) ++
        [.removeAll "Mypkg.framework", .mkdir "Mypkg.framework/Versions/A/Headers",
          .symlink "A" "Mypkg.framework/Versions/Current",
          .symlink "Versions/Current/Headers" "Mypkg.framework/Headers",
          .symlink "Versions/Current/Mypkg" "Mypkg.framework/Mypkg"] ++
        [.runCmd (lipoArgs okWorld "mypkg" twoArchs "Mypkg.framework" "Mypkg")] ++
        headerCalls okWorld [⟨"mypkg"⟩] "Mypkg" (bindSrcDir okWorld)
          "Mypkg.framework/Versions/A/Headers" fileBases ++
        [.mkdir "Mypkg.framework/Versions/A/Resources",
          .symlink "Versions/Current/Resources" "Mypkg.framework/Resources",
          .ioutilWriteFile "Mypkg.framework/Resources/Info.plist" osxBindInfoPlist 0o666] ++
        [.writeFile "Mypkg.framework/Versions/A/Modules/module.modulemap"
            (osxModuleMapTmpl "Mypkg" (headerFilesOf "Mypkg" fileBases)),
          .symlink "Versions/Current/Modules" "Mypkg.framework/Modules"] :=
  goOSXBind_call_order okWorld twoArchs [⟨"mypkg"⟩] "" "Mypkg.framework" "Mypkg" _ rfl rfl
    okWorld_run_twoArchs

end Gomobile
